import Mathlib

/-!
Verification of the jyLib rigging utilities.

This file gives a shallow embedding of the logic of

  * `jyLib/common.py` (string namespace splitting, `reposition`,
    `getHierarchy`, `checkContinuousHierarchy`, `midpoint`, `isclose`,
    `calculateClosestPointOnPlane`, `hasOffsetXform`, `createOffsetXform`),
  * `jyLib/rigger/ikfklimb.py` (`create`, `rig`), and
  * `jyLib/tools/blendshapemirrorhelper.py` (`_sortVerticies`, `resetSide`),

and proves the specification claims about them.

Modelling conventions:

  * Host (Maya) floating point arithmetic is modelled over an abstract field
    (instantiated at `ℝ` for the geometry claims, where the host's `sqrt` is
    `Real.sqrt`, and at `ℚ` for the scene-graph claims, where the values are
    exact).
  * Host scene state (DAG nodes, parents, local transforms, pivots, shape
    points, attribute connections, constraint nodes) is an explicit `Scene`
    record, mutated by explicit state-passing functions.  Scene nodes are
    identified by `Nat` ids; node name strings (used by the source only to
    build names of new nodes) are elided.
  * Unbounded `while` loops walking parent pointers take an explicit `fuel`
    argument and return `Option`/`Except`; `none` models a host error or a
    Python exception.
-/

/-! ### Vectors (pymel.core.datatypes.Vector) -/

@[ext]
structure Vec3 (α : Type) where
  x : α
  y : α
  z : α
deriving DecidableEq, Repr

section VecDefs

variable {α : Type} [Field α]

instance : Zero (Vec3 α) := ⟨⟨0, 0, 0⟩⟩

instance : Add (Vec3 α) := ⟨fun a b => ⟨a.x + b.x, a.y + b.y, a.z + b.z⟩⟩

instance : Neg (Vec3 α) := ⟨fun a => ⟨-a.x, -a.y, -a.z⟩⟩

instance : Sub (Vec3 α) := ⟨fun a b => ⟨a.x - b.x, a.y - b.y, a.z - b.z⟩⟩

instance : SMul α (Vec3 α) := ⟨fun r a => ⟨r * a.x, r * a.y, r * a.z⟩⟩

/-- Dot product of two vectors (`Vector.dot`). -/
def Vec3.dot (a b : Vec3 α) : α := a.x * b.x + a.y * b.y + a.z * b.z

/-- Cross product of two vectors (`Vector.cross`). -/
def Vec3.cross (a b : Vec3 α) : Vec3 α :=
  ⟨a.y * b.z - a.z * b.y, a.z * b.x - a.x * b.z, a.x * b.y - a.y * b.x⟩

/-- Length of a vector; `sqrtF` is the host's floating point square root. -/
def Vec3.lengthV (sqrtF : α → α) (a : Vec3 α) : α := sqrtF (Vec3.dot a a)

/-- `Vector.normal()`: the vector scaled by the reciprocal of its length. -/
def Vec3.normal (sqrtF : α → α) (a : Vec3 α) : Vec3 α :=
  (1 / Vec3.lengthV sqrtF a) • a

/-- `common.calculateClosestPointOnPlane`, translated line by line:
the unit normal of the plane through the three points, the signed distance
of `vecPoint` along it, and the returned point `vecPoint + -distance * n`. -/
def calculateClosestPointOnPlane (sqrtF : α → α)
    (vecPlane1 vecPlane2 vecPlane3 vecPoint : Vec3 α) : Vec3 α :=
  let vecPlaneNormal :=
    Vec3.normal sqrtF (Vec3.cross (vecPlane2 - vecPlane1) (vecPlane3 - vecPlane1))
  let distance := Vec3.dot vecPlaneNormal (vecPoint - vecPlane1)
  vecPoint + (-distance) • vecPlaneNormal

/-- Membership in the plane through `p1`, `p2`, `p3`: orthogonality to the
(unnormalised) cross-product normal of the three points. -/
def onPlane (p1 p2 p3 r : Vec3 α) : Prop :=
  Vec3.dot (Vec3.cross (p2 - p1) (p3 - p1)) (r - p1) = 0

end VecDefs

/-! ### Blendshape mirror helper (jyLib/tools/blendshapemirrorhelper.py) -/

/-- `common.midpoint`: the componentwise midpoint of two points.  (The source
takes the points as coordinate triples; this is the same function on `Vec3`
values.) -/
def midpoint3 (p q : Vec3 ℚ) : Vec3 ℚ :=
  ⟨(p.x + q.x) / 2, (p.y + q.y) / 2, (p.z + q.z) / 2⟩

/-- `common.isclose`: two scalars are close when `|a - b|` is at most
`max(rel_tol * max(|a|, |b|), abs_tol)`. -/
def isclose (a b rel_tol abs_tol : ℚ) : Bool :=
  decide (|a - b| ≤ max (rel_tol * max |a| |b|) abs_tol)

/-- The three vertex labels assigned by `_sortVerticies`. -/
inductive Side
  | left
  | right
  | center
deriving DecidableEq, Repr

/-- Classification of one vertex in `_sortVerticies` from the world
x-coordinate of the vertex: `center` when
`common.isclose(0, x, abs_tol=0.000001)` holds (with the default
`rel_tol=1e-09`), otherwise `left` when `x > 0`, otherwise `right`. -/
def sideOfX (x : ℚ) : Side :=
  if isclose 0 x (1 / 1000000000) (1 / 1000000) then Side.center
  else if x > 0 then Side.left
  else Side.right

/-- `_sortVerticies`: for each vertex index `i` of the mesh (in
`xrange(len(xMesh.vtx))` order), the pair of `i` and the side of the
vertex's world position. -/
def sortVerticies (xMesh : List (Vec3 ℚ)) : List (Nat × Side) :=
  (List.range xMesh.length).map (fun i => (i, sideOfX (xMesh.getD i 0).x))

/-- One iteration of the vertex loop of `resetSide` on one blendshape mesh:
vertex `i` (classified as `iSide` on the base mesh) is moved to the base
position when it differs from the base and lies on the side being reset,
moved to the midpoint when it differs and is central, and left alone
otherwise.  (An out-of-range index, which would be a host error, leaves the
mesh unchanged.) -/
def resetStep (xBaseMesh : List (Vec3 ℚ)) (side : Side)
    (bl : List (Vec3 ℚ)) (entry : Nat × Side) : List (Vec3 ℚ) :=
  match xBaseMesh[entry.1]?, bl[entry.1]? with
  | some lBaseVtxPos, some lBlendshapeVtxPos =>
    if lBaseVtxPos ≠ lBlendshapeVtxPos then
      if entry.2 = side then bl.set entry.1 lBaseVtxPos
      else if entry.2 = Side.center then
        bl.set entry.1 (midpoint3 lBaseVtxPos lBlendshapeVtxPos)
      else bl
    else bl
  | _, _ => bl

/-- `resetSide` restricted to a single blendshape mesh: the vertex loop
folded over the sorted vertex dictionary of the base mesh. -/
def resetOne (xBaseMesh xBlendshapeMesh : List (Vec3 ℚ)) (side : Side) :
    List (Vec3 ℚ) :=
  (sortVerticies xBaseMesh).foldl (resetStep xBaseMesh side) xBlendshapeMesh

/-- `resetSide`: the reset is performed on each provided blendshape mesh
against the one base mesh.  (The vertex-count warning in the source changes
no state and is elided.) -/
def resetSide (lBlendshapeMeshes : List (List (Vec3 ℚ)))
    (xBaseMesh : List (Vec3 ℚ)) (side : Side) : List (List (Vec3 ℚ)) :=
  lBlendshapeMeshes.map (fun m => resetOne xBaseMesh m side)

/-! ### Namespace splitting (common.getNamespace / common.getObjectName) -/

/-- `uName.rsplit(':', 1)` on a list of characters: `some (before, after)`
splitting at the last colon, or `none` when the string has no colon (in
which case Python's `rsplit` returns the one-element list `[uName]`). -/
def rsplitColon : List Char → Option (List Char × List Char)
  | [] => none
  | c :: rest =>
    match rsplitColon rest with
    | some (a, b) => some (c :: a, b)
    | none => if c = ':' then some ([], rest) else none

/-- `common.getNamespace`: the part before the last colon, or the empty
string when there is no colon. -/
def getNamespace (uName : List Char) : List Char :=
  match rsplitColon uName with
  | some (a, _) => a
  | none => []

/-- `common.getObjectName`: the part after the last colon (`rsplit` index 1),
or the whole string when there is no colon (the `IndexError` branch). -/
def getObjectName (uName : List Char) : List Char :=
  match rsplitColon uName with
  | some (_, b) => b
  | none => uName

/-! ### Parent-pointer hierarchy walking (common.getHierarchy) -/

/-- The `k`-th ancestor of a node under a parent-pointer map, when the whole
chain exists (`ancestorAt par 0 x = some x`; one step follows `par`). -/
def ancestorAt (par : Nat → Option Nat) : Nat → Nat → Option Nat
  | 0, x => some x
  | k + 1, x => (par x).bind (ancestorAt par k)

/-- The check `xEnd in pm.listRelatives(xStart, ad=True)`: whether `e` is a
strict descendant of `s`, searching parent chains of length at most `fuel`. -/
def descendsWithin (par : Nat → Option Nat) : Nat → Nat → Nat → Bool
  | 0, _, _ => false
  | fuel + 1, s, e =>
    match par e with
    | none => false
    | some p => p = s || descendsWithin par fuel s p

/-- The `while current != xStart` loop of `getHierarchy`: walk parent
pointers from `e` up to `s`, building the list front to back.  `none` models
both fuel exhaustion and the host crash of calling `getParent` past a root. -/
def walkUp (par : Nat → Option Nat) (s : Nat) : Nat → Nat → Option (List Nat)
  | 0, e => if e = s then some [s] else none
  | fuel + 1, e =>
    if e = s then some [s]
    else
      match par e with
      | none => none
      | some p => (walkUp par s fuel p).map (fun l => l ++ [e])

/-- `common.getHierarchy`: `pm.error` (modelled as `Except.error`) when `e`
is not found among the descendants of `s`, otherwise the chain of nodes from
`s` down to `e`. -/
def getHierarchy (par : Nat → Option Nat) (fuel s e : Nat) :
    Except Unit (List Nat) :=
  if descendsWithin par fuel s e then
    match walkUp par s fuel e with
    | some l => Except.ok l
    | none => Except.error ()
  else Except.error ()

/-! ### common.checkContinuousHierarchy -/

/-- `common.checkContinuousHierarchy`, with the list index `i` explicit (the
source starts at `i = 1`).  When the parent of `lJoints[i]` is not in the
list it is inserted at position `i` and the index is not advanced; otherwise
the index advances.  `none` models fuel exhaustion, and also a node without
a parent at position `i` (where the source would insert Python's `None` and
crash calling `None.getParent()` on the next iteration). -/
def checkContinuousHierarchy (par : Nat → Option Nat) :
    Nat → List Nat → Nat → Option (List Nat)
  | 0, _, _ => none
  | fuel + 1, lJoints, i =>
    if h : i < lJoints.length then
      match par (lJoints.get ⟨i, h⟩) with
      | none => none
      | some p =>
        if p ∈ lJoints then checkContinuousHierarchy par fuel lJoints (i + 1)
        else checkContinuousHierarchy par fuel (lJoints.insertIdx i p) i
    else some lJoints


/-! ### 3x3 matrices and affine transforms (host transform values) -/

/-- A 3x3 matrix of rationals, modelling the linear part (rotation, scale,
shear) of a host transform. -/
@[ext]
structure Mat3 where
  m00 : ℚ
  m01 : ℚ
  m02 : ℚ
  m10 : ℚ
  m11 : ℚ
  m12 : ℚ
  m20 : ℚ
  m21 : ℚ
  m22 : ℚ
deriving DecidableEq, Repr

/-- The identity matrix. -/
def Mat3.id3 : Mat3 := ⟨1, 0, 0, 0, 1, 0, 0, 0, 1⟩

/-- Matrix product. -/
def Mat3.mul (a b : Mat3) : Mat3 :=
  ⟨a.m00 * b.m00 + a.m01 * b.m10 + a.m02 * b.m20,
   a.m00 * b.m01 + a.m01 * b.m11 + a.m02 * b.m21,
   a.m00 * b.m02 + a.m01 * b.m12 + a.m02 * b.m22,
   a.m10 * b.m00 + a.m11 * b.m10 + a.m12 * b.m20,
   a.m10 * b.m01 + a.m11 * b.m11 + a.m12 * b.m21,
   a.m10 * b.m02 + a.m11 * b.m12 + a.m12 * b.m22,
   a.m20 * b.m00 + a.m21 * b.m10 + a.m22 * b.m20,
   a.m20 * b.m01 + a.m21 * b.m11 + a.m22 * b.m21,
   a.m20 * b.m02 + a.m21 * b.m12 + a.m22 * b.m22⟩

/-- Matrix-vector product. -/
def Mat3.mulVec (a : Mat3) (v : Vec3 ℚ) : Vec3 ℚ :=
  ⟨a.m00 * v.x + a.m01 * v.y + a.m02 * v.z,
   a.m10 * v.x + a.m11 * v.y + a.m12 * v.z,
   a.m20 * v.x + a.m21 * v.y + a.m22 * v.z⟩

/-- Determinant. -/
def Mat3.det (a : Mat3) : ℚ :=
  a.m00 * (a.m11 * a.m22 - a.m12 * a.m21)
    - a.m01 * (a.m10 * a.m22 - a.m12 * a.m20)
    + a.m02 * (a.m10 * a.m21 - a.m11 * a.m20)

/-- Scalar multiple. -/
def Mat3.smul (r : ℚ) (a : Mat3) : Mat3 :=
  ⟨r * a.m00, r * a.m01, r * a.m02, r * a.m10, r * a.m11, r * a.m12,
   r * a.m20, r * a.m21, r * a.m22⟩

/-- Adjugate (transposed cofactor matrix). -/
def Mat3.adj (a : Mat3) : Mat3 :=
  ⟨a.m11 * a.m22 - a.m12 * a.m21,
   -(a.m01 * a.m22 - a.m02 * a.m21),
   a.m01 * a.m12 - a.m02 * a.m11,
   -(a.m10 * a.m22 - a.m12 * a.m20),
   a.m00 * a.m22 - a.m02 * a.m20,
   -(a.m00 * a.m12 - a.m02 * a.m10),
   a.m10 * a.m21 - a.m11 * a.m20,
   -(a.m00 * a.m21 - a.m01 * a.m20),
   a.m00 * a.m11 - a.m01 * a.m10⟩

/-- Inverse via the adjugate; nonsense when the determinant vanishes (the
claims carry explicit invertibility hypotheses). -/
def Mat3.inv (a : Mat3) : Mat3 := Mat3.smul (1 / Mat3.det a) (Mat3.adj a)

/-- An affine transform: linear part plus translation. -/
@[ext]
structure Aff where
  lin : Mat3
  tr : Vec3 ℚ
deriving DecidableEq, Repr

/-- The identity transform. -/
def Aff.idA : Aff := ⟨Mat3.id3, 0⟩

/-- Apply an affine transform to a point. -/
def Aff.apply (f : Aff) (v : Vec3 ℚ) : Vec3 ℚ := Mat3.mulVec f.lin v + f.tr

/-- Composition: `(f.comp g).apply v = f.apply (g.apply v)`. -/
def Aff.comp (f g : Aff) : Aff :=
  ⟨Mat3.mul f.lin g.lin, Mat3.mulVec f.lin g.tr + f.tr⟩

/-- Inverse affine transform (nonsense when the linear part is singular). -/
def Aff.inv (f : Aff) : Aff :=
  ⟨Mat3.inv f.lin, -(Mat3.mulVec (Mat3.inv f.lin) f.tr)⟩

/-! ### The host scene (Maya DAG, attributes and connections) -/

/-- Node kinds used by the modelled code.  `ikHandle` and `effector` nodes
are transform-derived in the host, like `transform` and `joint`. -/
inductive NKind
  | transform
  | joint
  | shape
  | blendColors
  | ikHandle
  | effector
deriving DecidableEq, Repr

/-- Constraint kinds created by the modelled code. -/
inductive CKind
  | pointC
  | orientC
  | parentC
  | poleVectorC
deriving DecidableEq, Repr

/-- Attribute names occurring in the connections made by `ikfklimb.create`. -/
inductive AttrName
  | rotate
  | color1
  | color2
  | output
deriving DecidableEq, Repr

/-- The host scene.  Association lists map node ids to attribute values;
the first entry for a key wins, so updates prepend.  `created` is a
monotone log of every constraint node ever created (with its kind), which
survives deletion and lets frame claims speak about creations. -/
structure Scene where
  nodes : List Nat
  par : List (Nat × Nat)
  kind : List (Nat × NKind)
  loc : List (Nat × Aff)
  pivotL : List (Nat × Vec3 ℚ)
  pts : List (Nat × List (Vec3 ℚ))
  radius : List (Nat × ℚ)
  conns : List ((Nat × AttrName) × (Nat × AttrName))
  blender : List (Nat × ℚ)
  constraints : List Nat
  created : List (Nat × CKind)
  attrIKFK : List (Nat × ℚ)
  sdk : List (Nat × Nat × ℚ × ℚ)
  nextId : Nat
deriving Repr

/-- First-match association lookup. -/
def alook {β : Type} (k : Nat) : List (Nat × β) → Option β
  | [] => none
  | (k2, v) :: rest => if k2 = k then some v else alook k rest

/-- The parent of a node (`None` is the world). -/
def Scene.parOf (s : Scene) (n : Nat) : Option Nat := alook n s.par

/-- The scene's parent map as a function, as used by the hierarchy code. -/
def Scene.parFn (s : Scene) : Nat → Option Nat := fun n => alook n s.par

/-- The kind of a node. -/
def Scene.kindOf (s : Scene) (n : Nat) : Option NKind := alook n s.kind

/-- The local transform of a node (identity when never set). -/
def Scene.locOf (s : Scene) (n : Nat) : Aff := (alook n s.loc).getD Aff.idA

/-- The local rotate pivot of a node (the origin when never set). -/
def Scene.pivotOf (s : Scene) (n : Nat) : Vec3 ℚ := (alook n s.pivotL).getD 0

/-- The control points of a shape node, in its parent's local space. -/
def Scene.ptsOf (s : Scene) (n : Nat) : List (Vec3 ℚ) := (alook n s.pts).getD []

/-- The radius attribute of a joint. -/
def Scene.radiusOf (s : Scene) (n : Nat) : ℚ := (alook n s.radius).getD 0

/-- Set the local transform of a node. -/
def Scene.setLoc (s : Scene) (n : Nat) (a : Aff) : Scene :=
  { s with loc := (n, a) :: s.loc }

/-- Set the parent of a node. -/
def Scene.setPar (s : Scene) (n : Nat) (p : Nat) : Scene :=
  { s with par := (n, p) :: s.par }

/-- Set the local pivot of a node. -/
def Scene.setPivot (s : Scene) (n : Nat) (v : Vec3 ℚ) : Scene :=
  { s with pivotL := (n, v) :: s.pivotL }

/-- Set the control points of a shape node. -/
def Scene.setPts (s : Scene) (n : Nat) (l : List (Vec3 ℚ)) : Scene :=
  { s with pts := (n, l) :: s.pts }

/-- Set the radius attribute of a joint. -/
def Scene.setRadius (s : Scene) (n : Nat) (r : ℚ) : Scene :=
  { s with radius := (n, r) :: s.radius }

/-- Set the blender attribute of a blendColors node. -/
def Scene.setBlender (s : Scene) (n : Nat) (r : ℚ) : Scene :=
  { s with blender := (n, r) :: s.blender }

/-- Add an attribute connection (`src >> dst`). -/
def connectAttr (s : Scene) (src dst : Nat × AttrName) : Scene :=
  { s with conns := (src, dst) :: s.conns }

/-- The world transform of a node: the composition of the local transforms
up the parent chain.  `fuel` bounds the chain walk (any fuel at least the
chain length gives the true value). -/
def worldAff (fuel : Nat) (s : Scene) (n : Nat) : Aff :=
  match fuel with
  | 0 => Aff.idA
  | fuel + 1 =>
    match s.parOf n with
    | none => s.locOf n
    | some p => Aff.comp (worldAff fuel s p) (s.locOf n)

/-- The ancestor-or-self chain of a node, up to `fuel` parent steps. -/
def chainList (s : Scene) : Nat → Nat → List Nat
  | 0, n => [n]
  | fuel + 1, n =>
    match s.parOf n with
    | none => [n]
    | some p => n :: chainList s fuel p

/-- Whether the parent chain of a node reaches the world within `fuel`
steps. -/
def rootedIn (s : Scene) : Nat → Nat → Bool
  | 0, _ => false
  | fuel + 1, n =>
    match s.parOf n with
    | none => true
    | some p => rootedIn s fuel p

/-- Whether the parent chain of a node reaches the world within `fuel`
steps with every local transform on it invertible. -/
def invChain (s : Scene) : Nat → Nat → Bool
  | 0, _ => false
  | fuel + 1, n =>
    if Mat3.det (s.locOf n).lin = 0 then false
    else
      match s.parOf n with
      | none => true
      | some p => invChain s fuel p

/-- The world-space rotate pivot of a node
(`pm.xform(n, q=True, rp=True, ws=True)`). -/
def worldPivot (fuel : Nat) (s : Scene) (n : Nat) : Vec3 ℚ :=
  Aff.apply (worldAff fuel s n) (s.pivotOf n)

/-- The direct children of a node. -/
def childrenOf (s : Scene) (n : Nat) : List Nat :=
  s.nodes.filter (fun c => decide (Scene.parOf s c = some n))

/-- Whether a node kind is transform-derived in the host (matched by
`listRelatives(typ='transform')`). -/
def NKind.isTransformLike : NKind → Bool
  | NKind.transform => true
  | NKind.joint => true
  | NKind.ikHandle => true
  | NKind.effector => true
  | NKind.shape => false
  | NKind.blendColors => false

/-- `common.hasOffsetXform`: false when the control is parented to the
world, or its parent carries a shape, or the parent has more than one
transform child; true otherwise. -/
def hasOffsetXform (s : Scene) (xCtrl : Nat) : Bool :=
  match s.parOf xCtrl with
  | none => false
  | some xParent =>
    if (childrenOf s xParent).any
        (fun c => decide (Scene.kindOf s c = some NKind.shape)) then false
    else if 1 < ((childrenOf s xParent).filter
        (fun c => ((Scene.kindOf s c).map NKind.isTransformLike).getD false)).length
      then false
    else true

/-- `pm.createNode`: a fresh node of the given kind, parented to the world,
with identity transform and no pivot, points or children. -/
def createNode (s : Scene) (k : NKind) : Nat × Scene :=
  (s.nextId,
    { s with
      nodes := s.nodes ++ [s.nextId]
      kind := (s.nextId, k) :: s.kind
      nextId := s.nextId + 1 })

/-- The world transform of the parent of a node (the identity for a node
parented to the world). -/
def parentWorld (fuel : Nat) (s : Scene) (n : Nat) : Aff :=
  match s.parOf n with
  | none => Aff.idA
  | some p => worldAff fuel s p

/-- Centroid of a list of points. -/
def centroid (l : List (Vec3 ℚ)) : Vec3 ℚ :=
  ((1 : ℚ) / (l.length : ℚ)) • l.foldl (fun acc v => acc + v) 0

/-- Modelled host constraint snap.  A point constraint moves the child so
its world rotate pivot is the centroid of the targets' world rotate pivots;
an orient constraint aligns the child's world linear part with the first
target's while keeping its world pivot fixed (multi-target orientation
averaging is not examined by any claim); a parent constraint does both; a
pole-vector constraint moves nothing.  The child's local transform is
recomputed through the inverse of its parent's world transform. -/
def snapTo (fuel : Nat) (s : Scene) (k : CKind) (lParent : List Nat)
    (uChild : Nat) : Scene :=
  match k with
  | CKind.poleVectorC => s
  | _ =>
    let wp := parentWorld fuel s uChild
    let cw := Aff.comp wp (s.locOf uChild)
    let targLin :=
      match lParent.head? with
      | none => cw.lin
      | some t0 => (worldAff fuel s t0).lin
    let targPos := centroid (lParent.map (fun t => worldPivot fuel s t))
    let desired : Aff :=
      match k with
      | CKind.pointC => ⟨cw.lin, targPos - Mat3.mulVec cw.lin (s.pivotOf uChild)⟩
      | CKind.orientC =>
        ⟨targLin, Aff.apply cw (s.pivotOf uChild) -
          Mat3.mulVec targLin (s.pivotOf uChild)⟩
      | _ => ⟨targLin, targPos - Mat3.mulVec targLin (s.pivotOf uChild)⟩
    Scene.setLoc s uChild (Aff.comp (Aff.inv wp) desired)

/-- Host constraint creation (`cmds.pointConstraint` and friends): snap the
child, then register a fresh constraint node (and log its creation). -/
def addConstraint (fuel : Nat) (s : Scene) (k : CKind) (lParent : List Nat)
    (uChild : Nat) : Nat × Scene :=
  let s2 := snapTo fuel s k lParent uChild
  (s2.nextId,
    { s2 with
      constraints := s2.nextId :: s2.constraints
      created := (s2.nextId, k) :: s2.created
      nextId := s2.nextId + 1 })

/-- `cmds.delete` on a constraint node. -/
def deleteConstraint (s : Scene) (c : Nat) : Scene :=
  { s with constraints := s.constraints.erase c }

/-- The constraint kind selected by `reposition`'s `uType` argument. -/
def ckindOfType (uType : String) : CKind :=
  if uType = "point" then CKind.pointC
  else if uType = "orient" then CKind.orientC
  else CKind.parentC

/-- `common.reposition`: for each child in order, create the constraint
selected by `uType` from all the parents, then delete it.  (The
`_getListOfObjectNames` conversion of single objects to lists is elided:
parents and children are given as lists of node ids.) -/
def reposition (fuel : Nat) (s : Scene) (lParent lChild : List Nat)
    (uType : String) : Scene :=
  lChild.foldl (fun acc uChild =>
    let r := addConstraint fuel acc (ckindOfType uType) lParent uChild
    deleteConstraint r.2 r.1) s

/-- `pm.parent(child, newParent)`: reparent preserving the world transform
(the local transform is recomputed through the new parent's inverse). -/
def reparent (fuel : Nat) (s : Scene) (uChild uParent : Nat) : Scene :=
  let w := worldAff fuel s uChild
  let wp := worldAff fuel s uParent
  Scene.setLoc (Scene.setPar s uChild uParent) uChild (Aff.comp (Aff.inv wp) w)

/-- One child step of `makeIdentity`: a shape child gets the frozen local
transform baked into its points, a transform child gets it composed into its
local transform. -/
def miStep (L : Aff) (acc : Scene) (c : Nat) : Scene :=
  if Scene.kindOf acc c = some NKind.shape then
    Scene.setPts acc c ((Scene.ptsOf acc c).map (fun v => Aff.apply L v))
  else Scene.setLoc acc c (Aff.comp L (Scene.locOf acc c))

/-- `pm.makeIdentity(a=True, t=True, r=True, s=True)` on a transform: the
node's local transform becomes the identity; to keep world positions fixed,
shape children get the old local transform baked into their points,
transform children get it composed into their local transforms, and the
node's own pivot is baked the same way. -/
def makeIdentity (s : Scene) (n : Nat) : Scene :=
  let L := Scene.locOf s n
  let s1 := (childrenOf s n).foldl (miStep L) s
  Scene.setPivot (Scene.setLoc s1 n Aff.idA) n (Aff.apply L (Scene.pivotOf s n))

/-- `common.createOffsetXform`.  Node naming (the `split('_')` reassembly)
is elided.  `none` models the host error of `pm.parent` when the control
has no parent. -/
def createOffsetXform (fuel : Nat) (s : Scene) (xCtrl : Nat)
    (xDriven : Option Nat) : Option (Nat × Scene) :=
  let r := createNode s NKind.transform
  let xOffset := r.1
  let s1 := r.2
  let s2 :=
    match xDriven with
    | none => reposition fuel s1 [xCtrl] [xOffset] "parent"
    | some d =>
      let sa := reposition fuel s1 [d] [xOffset] "parent"
      -- pm.xform(xCtrl, piv=lDrivenRotatePivot, ws=True): the control's
      -- local pivot is set so its world pivot lands on the driven pivot
      Scene.setPivot sa xCtrl
        (Aff.apply (Aff.inv (worldAff fuel sa xCtrl)) (worldPivot fuel sa d))
  match Scene.parOf s2 xCtrl with
  | none => none
  | some xParent =>
    let s3 := reparent fuel s2 xOffset xParent
    let s4 := reparent fuel s3 xCtrl xOffset
    some (xOffset, makeIdentity s4 xCtrl)

/-! ### jyLib/rigger/ikfklimb.py -/

/-- `pm.duplicate(jnt, po=True)`: a fresh node of the original's kind,
parented under the original's parent, with the original's local transform,
pivot and radius, and no children. -/
def duplicatePO (s : Scene) (orig : Nat) : Nat × Scene :=
  (s.nextId,
    { s with
      nodes := s.nodes ++ [s.nextId]
      kind := match Scene.kindOf s orig with
              | none => s.kind
              | some k => (s.nextId, k) :: s.kind
      par := match Scene.parOf s orig with
             | none => s.par
             | some p => (s.nextId, p) :: s.par
      loc := (s.nextId, Scene.locOf s orig) :: s.loc
      pivotL := (s.nextId, Scene.pivotOf s orig) :: s.pivotL
      radius := (s.nextId, Scene.radiusOf s orig) :: s.radius
      nextId := s.nextId + 1 })

/-- The first loop of `ikfklimb.create`: each bind joint is duplicated
twice (parents only), the IK copy with radius scaled by 0.7 and the FK copy
with radius scaled by 0.4. -/
def createLoop1 : List Nat → Scene → List Nat × List Nat × Scene
  | [], s => ([], [], s)
  | jntCurrent :: rest, s =>
    let rIK := duplicatePO s jntCurrent
    let s1 := Scene.setRadius rIK.2 rIK.1
      (Scene.radiusOf rIK.2 jntCurrent * (7 / 10))
    let rFK := duplicatePO s1 jntCurrent
    let s2 := Scene.setRadius rFK.2 rFK.1
      (Scene.radiusOf rFK.2 jntCurrent * (4 / 10))
    let r := createLoop1 rest s2
    (rIK.1 :: r.1, rFK.1 :: r.2.1, r.2.2)

/-- The second loop of `ikfklimb.create`: for `i` from `len-1` down to `1`,
joint `i` is parented under joint `i-1` in both duplicated chains. -/
def createLoop2 (fuel : Nat) (lIKJoints lFKJoints : List Nat) :
    Nat → Scene → Scene
  | 0, s => s
  | i + 1, s =>
    let s1 := reparent fuel s (lIKJoints.getD (i + 1) 0) (lIKJoints.getD i 0)
    let s2 := reparent fuel s1 (lFKJoints.getD (i + 1) 0) (lFKJoints.getD i 0)
    createLoop2 fuel lIKJoints lFKJoints i s2

/-- Triple zip (`itertools.izip` of three lists). -/
def zip3 {A B C : Type} : List A → List B → List C → List (A × B × C)
  | a :: as2, b :: bs, c :: cs => (a, b, c) :: zip3 as2 bs cs
  | _, _, _ => []

/-- The third loop of `ikfklimb.create`: one fresh `blendColors` node per
bind joint, wired FK rotate → color1, IK rotate → color2, output → bind
rotate, with the blender attribute set to 0. -/
def createLoop3 : List (Nat × Nat × Nat) → Scene → List Nat × Scene
  | [], s => ([], s)
  | (jntBind, jntIK, jntFK) :: rest, s =>
    let r := createNode s NKind.blendColors
    let s1 := connectAttr r.2 (jntFK, AttrName.rotate) (r.1, AttrName.color1)
    let s2 := connectAttr s1 (jntIK, AttrName.rotate) (r.1, AttrName.color2)
    let s3 := connectAttr s2 (r.1, AttrName.output) (jntBind, AttrName.rotate)
    let s4 := Scene.setBlender s3 r.1 0
    let rr := createLoop3 rest s4
    (r.1 :: rr.1, rr.2)

/-- `ikfklimb.create`: run `checkContinuousHierarchy` on the bind chain,
then the three loops.  `none` models a failure (fuel exhaustion or a crash)
of the hierarchy check. -/
def ikfkCreate (fuel : Nat) (s : Scene) (lJoints : List Nat) :
    Option (List Nat × List Nat × List Nat × Scene) :=
  match checkContinuousHierarchy (Scene.parFn s) fuel lJoints 1 with
  | none => none
  | some lJoints2 =>
    let r1 := createLoop1 lJoints2 s
    let s2 := createLoop2 fuel r1.1 r1.2.1 (lJoints2.length - 1) r1.2.2
    let r3 := createLoop3 (zip3 lJoints2 r1.1 r1.2.1) s2
    some (r1.1, r1.2.1, r3.1, r3.2)

/-- `ikfklimb.rig`.  `sqrtF` is the host's floating point square root (used
by the pole-vector plane projection).  `none` models a host error — or, in
the pole-vector branch, Python's `UnboundLocalError`: the local variable
`xIKPVCtrlOffset` is assigned only when the control has no offset transform
yet, but is read unconditionally afterwards. -/
def rig (fuel : Nat) (sqrtF : ℚ → ℚ) (s : Scene)
    (lIKJoints lFKJoints lBlendColors : List Nat)
    (xIKEndCtrl xIKPVCtrl : Option Nat) (lFKCtrls : Option (List Nat))
    (xIKFKSwitchCtrl : Option Nat) : Option Scene :=
  match lIKJoints.head?, lIKJoints.getLast? with
  | some _, some ee =>
    let rH := createNode s NKind.ikHandle
    let rE := createNode rH.2 NKind.effector
    let ikHandle := rH.1
    let s1 := rE.2
    let s2? : Option Scene :=
      match xIKEndCtrl with
      | none => some s1
      | some c =>
        let o1? : Option Scene :=
          if hasOffsetXform s1 c then some s1
          else (createOffsetXform fuel s1 c (some ee)).map (fun r => r.2)
        match o1? with
        | none => none
        | some sa =>
          let sb := (addConstraint fuel sa CKind.pointC [c] ikHandle).2
          some (addConstraint fuel sb CKind.orientC [c] ee).2
    match s2? with
    | none => none
    | some s2 =>
      let s3? : Option Scene :=
        match xIKPVCtrl with
        | none => some s2
        | some c =>
          let off? : Option (Option Nat × Scene) :=
            if hasOffsetXform s2 c then some (none, s2)
            else (createOffsetXform fuel s2 c none).map
              (fun r => (some r.1, r.2))
          match off? with
          | none => none
          | some (none, _) => none
          | some (some xOffset, sa) =>
            let v1 := worldPivot fuel sa (lIKJoints.getD 0 0)
            let v2 := worldPivot fuel sa (lIKJoints.getD 1 0)
            let v3 := worldPivot fuel sa ee
            let vecResult := calculateClosestPointOnPlane sqrtF v1 v2 v3
              (worldPivot fuel sa xOffset)
            let wp := parentWorld fuel sa xOffset
            let lo := Scene.locOf sa xOffset
            let sb := Scene.setLoc sa xOffset
              ⟨lo.lin, Mat3.mulVec (Mat3.inv wp.lin) (vecResult - wp.tr)⟩
            some (addConstraint fuel sb CKind.poleVectorC [c] ikHandle).2
      match s3? with
      | none => none
      | some s3 =>
        let s4? : Option Scene :=
          match lFKCtrls with
          | none => some s3
          | some ctrls =>
            (ctrls.zip lFKJoints).foldlM (fun acc (p : Nat × Nat) =>
              let o? : Option Scene :=
                if hasOffsetXform acc p.1 then some acc
                else (createOffsetXform fuel acc p.1 (some p.2)).map
                  (fun r => r.2)
              match o? with
              | none => none
              | some sa => some (addConstraint fuel sa CKind.orientC
                  [p.1] p.2).2) s3
        match s4? with
        | none => none
        | some s4 =>
          match xIKFKSwitchCtrl with
          | none => some s4
          | some sw =>
            let s5 := { s4 with attrIKFK := (sw, 0) :: s4.attrIKFK }
            some (lBlendColors.foldl (fun acc bc =>
              { acc with sdk := (bc, sw, 1, 10) :: (bc, sw, 0, 0) :: acc.sdk })
              s5)
  | _, _ => none


/-- All scene state other than local transforms, the constraint set, the
creation log and the id counter is unchanged between two scenes. -/
def framePreserved (s s2 : Scene) : Prop :=
  s2.par = s.par ∧ s2.kind = s.kind ∧ s2.nodes = s.nodes ∧
  s2.pivotL = s.pivotL ∧ s2.pts = s.pts ∧ s2.radius = s.radius ∧
  s2.conns = s.conns ∧ s2.blender = s.blender ∧ s2.attrIKFK = s.attrIKFK ∧
  s2.sdk = s.sdk

/-! ### Component lemmas for `Vec3` -/

section VecLemmas

variable {α : Type} [Field α]

@[simp] theorem Vec3.zero_x : (0 : Vec3 α).x = 0 := rfl

@[simp] theorem Vec3.zero_y : (0 : Vec3 α).y = 0 := rfl

@[simp] theorem Vec3.zero_z : (0 : Vec3 α).z = 0 := rfl

@[simp] theorem Vec3.add_x (a b : Vec3 α) : (a + b).x = a.x + b.x := rfl

@[simp] theorem Vec3.add_y (a b : Vec3 α) : (a + b).y = a.y + b.y := rfl

@[simp] theorem Vec3.add_z (a b : Vec3 α) : (a + b).z = a.z + b.z := rfl

@[simp] theorem Vec3.sub_x (a b : Vec3 α) : (a - b).x = a.x - b.x := rfl

@[simp] theorem Vec3.sub_y (a b : Vec3 α) : (a - b).y = a.y - b.y := rfl

@[simp] theorem Vec3.sub_z (a b : Vec3 α) : (a - b).z = a.z - b.z := rfl

@[simp] theorem Vec3.neg_x (a : Vec3 α) : (-a).x = -a.x := rfl

@[simp] theorem Vec3.neg_y (a : Vec3 α) : (-a).y = -a.y := rfl

@[simp] theorem Vec3.neg_z (a : Vec3 α) : (-a).z = -a.z := rfl

@[simp] theorem Vec3.smul_x (r : α) (a : Vec3 α) : (r • a).x = r * a.x := rfl

@[simp] theorem Vec3.smul_y (r : α) (a : Vec3 α) : (r • a).y = r * a.y := rfl

@[simp] theorem Vec3.smul_z (r : α) (a : Vec3 α) : (r • a).z = r * a.z := rfl

theorem Vec3.dot_comm (a b : Vec3 α) : Vec3.dot a b = Vec3.dot b a := by
  simp [Vec3.dot]; ring

theorem Vec3.dot_add_right (a b c : Vec3 α) :
    Vec3.dot a (b + c) = Vec3.dot a b + Vec3.dot a c := by
  simp [Vec3.dot]; ring

theorem Vec3.dot_sub_right (a b c : Vec3 α) :
    Vec3.dot a (b - c) = Vec3.dot a b - Vec3.dot a c := by
  simp [Vec3.dot]; ring

theorem Vec3.dot_smul_right (r : α) (a b : Vec3 α) :
    Vec3.dot a (r • b) = r * Vec3.dot a b := by
  simp [Vec3.dot]; ring

theorem Vec3.dot_smul_left (r : α) (a b : Vec3 α) :
    Vec3.dot (r • a) b = r * Vec3.dot a b := by
  simp [Vec3.dot]; ring

theorem Vec3.add_sub_comm (a v b : Vec3 α) : (a + v) - b = (a - b) + v := by
  ext <;> simp only [Vec3.add_x, Vec3.add_y, Vec3.add_z, Vec3.sub_x, Vec3.sub_y,
    Vec3.sub_z] <;> ring

theorem Vec3.sub_sub_cancel (a b c : Vec3 α) : (a - c) - (b - c) = a - b := by
  ext <;> simp only [Vec3.sub_x, Vec3.sub_y, Vec3.sub_z] <;> ring

theorem Vec3.sub_add_sub (a b c : Vec3 α) : (a - b) + (b - c) = a - c := by
  ext <;> simp only [Vec3.add_x, Vec3.add_y, Vec3.add_z, Vec3.sub_x, Vec3.sub_y,
    Vec3.sub_z] <;> ring

theorem Vec3.sub_add_smul (a : Vec3 α) (r : α) (v : Vec3 α) :
    a - (a + r • v) = (-r) • v := by
  ext <;> simp only [Vec3.add_x, Vec3.add_y, Vec3.add_z, Vec3.sub_x, Vec3.sub_y,
    Vec3.sub_z, Vec3.smul_x, Vec3.smul_y, Vec3.smul_z, Vec3.neg_x, Vec3.neg_y,
    Vec3.neg_z] <;> ring

end VecLemmas

theorem Vec3.dot_self_nonneg (a : Vec3 ℝ) : 0 ≤ Vec3.dot a a := by
  simp only [Vec3.dot]
  nlinarith [mul_self_nonneg a.x, mul_self_nonneg a.y, mul_self_nonneg a.z]

theorem Vec3.dot_self_eq_zero (a : Vec3 ℝ) : Vec3.dot a a = 0 ↔ a = 0 := by
  constructor
  · intro h
    simp only [Vec3.dot] at h
    have hx : a.x = 0 := by
      nlinarith [mul_self_nonneg a.x, mul_self_nonneg a.y, mul_self_nonneg a.z]
    have hy : a.y = 0 := by
      nlinarith [mul_self_nonneg a.x, mul_self_nonneg a.y, mul_self_nonneg a.z]
    have hz : a.z = 0 := by
      nlinarith [mul_self_nonneg a.x, mul_self_nonneg a.y, mul_self_nonneg a.z]
    ext <;> simp [hx, hy, hz]
  · intro h
    subst h
    simp [Vec3.dot]

theorem Vec3.dot_self_pos (a : Vec3 ℝ) (h : a ≠ 0) : 0 < Vec3.dot a a :=
  lt_of_le_of_ne (Vec3.dot_self_nonneg a)
    (fun h0 => h ((Vec3.dot_self_eq_zero a).mp h0.symm))

/-- C1.  For non-collinear `p1 p2 p3` (nonzero cross product), the point
returned by `calculateClosestPointOnPlane` lies on the plane through
`p1`, `p2`, `p3` (which indeed passes through all three points), and its
distance to the query point is at most the distance from the query point to
any point of that plane: it is the orthogonal projection. -/
theorem closestPointOnPlane_correct (p1 p2 p3 q : Vec3 ℝ)
    (hnc : Vec3.cross (p2 - p1) (p3 - p1) ≠ 0) :
    onPlane p1 p2 p3 (calculateClosestPointOnPlane Real.sqrt p1 p2 p3 q) ∧
    onPlane p1 p2 p3 p1 ∧ onPlane p1 p2 p3 p2 ∧ onPlane p1 p2 p3 p3 ∧
    ∀ r : Vec3 ℝ, onPlane p1 p2 p3 r →
      Vec3.lengthV Real.sqrt (q - calculateClosestPointOnPlane Real.sqrt p1 p2 p3 q) ≤
        Vec3.lengthV Real.sqrt (q - r) := by
  have hS : (0:ℝ) < Vec3.dot (Vec3.cross (p2 - p1) (p3 - p1))
      (Vec3.cross (p2 - p1) (p3 - p1)) :=
    Vec3.dot_self_pos _ hnc
  set n0 : Vec3 ℝ := Vec3.cross (p2 - p1) (p3 - p1) with hn0
  set S : ℝ := Vec3.dot n0 n0 with hSdef
  set s : ℝ := Real.sqrt S with hsdef
  have hs : 0 < s := Real.sqrt_pos.mpr hS
  have hsne : s ≠ 0 := ne_of_gt hs
  have hs2 : s * s = S := Real.mul_self_sqrt (le_of_lt hS)
  -- the unit normal and the projection result
  set n : Vec3 ℝ := (1 / s) • n0 with hn
  set D : ℝ := Vec3.dot n0 (q - p1) with hD
  have hlen : Vec3.lengthV Real.sqrt n0 = s := by
    simp [Vec3.lengthV, hsdef, hSdef]
  have hnormal : Vec3.normal Real.sqrt n0 = n := by
    rw [Vec3.normal, hlen]
  have hd : Vec3.dot n (q - p1) = (1 / s) * D := by
    rw [hn, Vec3.dot_smul_left, hD]
  have hR : calculateClosestPointOnPlane Real.sqrt p1 p2 p3 q =
      q + (-((1 / s) * D)) • n := by
    rw [calculateClosestPointOnPlane]
    simp only [← hn0, hnormal, hd]
  set R : Vec3 ℝ := q + (-((1 / s) * D)) • n with hRdef
  have hn0n : Vec3.dot n0 n = s := by
    rw [hn, Vec3.dot_smul_right, ← hSdef]
    field_simp
    nlinarith [hs2]
  have hnn : Vec3.dot n n = 1 := by
    rw [hn, Vec3.dot_smul_left, hn0n]
    field_simp
  -- the result is on the plane
  have hRsub : R - p1 = (q - p1) + (-((1 / s) * D)) • n := by
    rw [hRdef, Vec3.add_sub_comm]
  have hplaneR : onPlane p1 p2 p3 R := by
    show Vec3.dot n0 (R - p1) = 0
    rw [hRsub, Vec3.dot_add_right, Vec3.dot_smul_right, hn0n, ← hD]
    field_simp
  have hp1 : onPlane p1 p2 p3 p1 := by
    show Vec3.dot n0 (p1 - p1) = 0
    simp [Vec3.dot]
  have hp2 : onPlane p1 p2 p3 p2 := by
    show Vec3.dot n0 (p2 - p1) = 0
    rw [hn0]
    simp [Vec3.dot, Vec3.cross]
    ring
  have hp3 : onPlane p1 p2 p3 p3 := by
    show Vec3.dot n0 (p3 - p1) = 0
    rw [hn0]
    simp [Vec3.dot, Vec3.cross]
    ring
  refine ⟨by rw [hR]; exact hplaneR, hp1, hp2, hp3, ?_⟩
  -- minimality
  intro r hr
  have hqR : q - R = ((1 / s) * D) • n := by
    rw [hRdef, Vec3.sub_add_smul]
    ext <;> simp
  have hplane_r : Vec3.dot n0 (r - p1) = 0 := hr
  have hnu : Vec3.dot n (R - r) = 0 := by
    have h1 : R - r = (R - p1) - (r - p1) := (Vec3.sub_sub_cancel R r p1).symm
    have h2 : Vec3.dot n0 (R - r) = 0 := by
      rw [h1, Vec3.dot_sub_right, hplane_r]
      have h3 : Vec3.dot n0 (R - p1) = 0 := hplaneR
      rw [h3]; ring
    rw [hn, Vec3.dot_smul_left, h2, mul_zero]
  have hsplit : q - r = (q - R) + (R - r) := (Vec3.sub_add_sub q R r).symm
  have hcmp : Vec3.dot (q - R) (q - R) ≤ Vec3.dot (q - r) (q - r) := by
    have hexp : Vec3.dot (q - r) (q - r) =
        Vec3.dot (q - R) (q - R) + 2 * (((1 / s) * D) * Vec3.dot n (R - r)) +
          Vec3.dot (R - r) (R - r) := by
      rw [hsplit, hqR]
      simp [Vec3.dot]
      ring
    rw [hexp, hnu]
    have := Vec3.dot_self_nonneg (R - r)
    nlinarith
  have hmono : Real.sqrt (Vec3.dot (q - R) (q - R)) ≤
      Real.sqrt (Vec3.dot (q - r) (q - r)) := Real.sqrt_le_sqrt hcmp
  rw [hR]
  exact hmono

/-- Witness for C1 at the concrete plane through the origin and the two unit
points on the x- and y-axes, with query point on the z-axis. -/
theorem closestPointOnPlane_correct_witness :
    onPlane (⟨0,0,0⟩ : Vec3 ℝ) ⟨1,0,0⟩ ⟨0,1,0⟩
      (calculateClosestPointOnPlane Real.sqrt ⟨0,0,0⟩ ⟨1,0,0⟩ ⟨0,1,0⟩ ⟨0,0,1⟩) := by
  have h := closestPointOnPlane_correct (⟨0,0,0⟩ : Vec3 ℝ) ⟨1,0,0⟩ ⟨0,1,0⟩ ⟨0,0,1⟩ (by
    intro hc
    have hz := congrArg Vec3.z hc
    simp [Vec3.cross] at hz)
  exact h.1

/-! ### Theorems for the blendshape mirror helper -/

theorem isclose_zero_iff (x r a : ℚ) :
    (isclose 0 x r a = true) ↔ |x| ≤ max (r * |x|) a := by
  rw [isclose, decide_eq_true_eq, zero_sub, abs_neg, abs_zero,
    max_eq_right (abs_nonneg x)]

theorem isclose_zero_small_iff (x : ℚ) :
    (isclose 0 x (1 / 1000000000) (1 / 1000000) = true) ↔ |x| ≤ 1 / 1000000 := by
  rw [isclose_zero_iff]
  constructor
  · intro h
    rcases le_max_iff.mp h with h1 | h1
    · nlinarith [abs_nonneg x]
    · exact h1
  · intro h
    exact le_max_iff.mpr (Or.inr h)

theorem sideOfX_of_small (x : ℚ) (h : |x| ≤ 1 / 1000000) :
    sideOfX x = Side.center := by
  rw [sideOfX, if_pos ((isclose_zero_small_iff x).mpr h)]

theorem sideOfX_of_pos (x : ℚ) (h1 : 1 / 1000000 < |x|) (h2 : 0 < x) :
    sideOfX x = Side.left := by
  rw [sideOfX, if_neg, if_pos h2]
  intro hc
  exact absurd ((isclose_zero_small_iff x).mp hc) (not_le.mpr h1)

theorem sideOfX_of_neg (x : ℚ) (h1 : 1 / 1000000 < |x|) (h2 : ¬(0 < x)) :
    sideOfX x = Side.right := by
  rw [sideOfX, if_neg, if_neg h2]
  intro hc
  exact absurd ((isclose_zero_small_iff x).mp hc) (not_le.mpr h1)

/-- C4.  `_sortVerticies` labels every vertex index of the mesh exactly once:
the labelled indices are exactly `range (len mesh)` in order, the label of
vertex `i` is `center` when `|x| <= max(1e-09 * |x|, 1e-06)` for its world
x-coordinate `x` (a condition equivalent to `|x| <= 1e-06`), otherwise
`left` when `x > 0`, otherwise `right`, and no index carries two labels. -/
theorem sortVerticies_spec (mesh : List (Vec3 ℚ)) :
    (sortVerticies mesh).map Prod.fst = List.range mesh.length
    ∧ (∀ x : ℚ, (isclose 0 x (1 / 1000000000) (1 / 1000000) = true) ↔
        |x| ≤ 1 / 1000000)
    ∧ (∀ i, ∀ hi : i < mesh.length,
        (i, if |mesh[i].x| ≤ max ((1 / 1000000000) * |mesh[i].x|) (1 / 1000000)
            then Side.center
            else if 0 < mesh[i].x then Side.left else Side.right)
          ∈ sortVerticies mesh)
    ∧ (∀ i s1 s2, (i, s1) ∈ sortVerticies mesh → (i, s2) ∈ sortVerticies mesh →
        s1 = s2) := by
  refine ⟨?_, ?_, ?_, ?_⟩
  · simp [sortVerticies, List.map_map, Function.comp_def]
  · intro x
    exact isclose_zero_small_iff x
  · intro i hi
    refine List.mem_map.mpr ⟨i, List.mem_range.mpr hi, ?_⟩
    have hg : mesh.getD i 0 = mesh[i] := by
      simp [List.getElem?_eq_getElem hi]
    rw [hg]
    simp only [sideOfX, isclose_zero_iff, gt_iff_lt]
  · intro i s1 s2 h1 h2
    obtain ⟨j1, hj1, he1⟩ := List.mem_map.mp h1
    obtain ⟨j2, hj2, he2⟩ := List.mem_map.mp h2
    injection he1 with ha1 hb1
    injection he2 with ha2 hb2
    subst ha1
    subst ha2
    rw [← hb1, ← hb2]

/-- Witness for C4 on a concrete three-vertex mesh. -/
theorem sortVerticies_spec_witness :
    ((1 : Nat), Side.left) ∈ sortVerticies [⟨0,0,0⟩, ⟨5,1,2⟩, ⟨-3,0,0⟩] := by
  have h := (sortVerticies_spec [⟨0,0,0⟩, ⟨5,1,2⟩, ⟨-3,0,0⟩]).2.2.1 1 (by norm_num)
  norm_num at h
  exact h

theorem resetStep_cases (base : List (Vec3 ℚ)) (side : Side)
    (bl : List (Vec3 ℚ)) (e : Nat × Side) :
    resetStep base side bl e = bl ∨
      ∃ v, resetStep base side bl e = bl.set e.1 v := by
  rw [resetStep]
  rcases base[e.1]? with _ | b
  · left; rfl
  · rcases bl[e.1]? with _ | v
    · left; rfl
    · dsimp only
      split_ifs with h1 h2 h3
      · right; exact ⟨b, rfl⟩
      · right; exact ⟨_, rfl⟩
      · left; rfl
      · left; rfl

theorem resetStep_length (base : List (Vec3 ℚ)) (side : Side)
    (bl : List (Vec3 ℚ)) (e : Nat × Side) :
    (resetStep base side bl e).length = bl.length := by
  rcases resetStep_cases base side bl e with h | ⟨v, h⟩ <;> simp [h]

theorem resetStep_getElem_ne (base : List (Vec3 ℚ)) (side : Side)
    (bl : List (Vec3 ℚ)) (e : Nat × Side) (j : Nat) (hne : e.1 ≠ j) :
    (resetStep base side bl e)[j]? = bl[j]? := by
  rcases resetStep_cases base side bl e with h | ⟨v, h⟩ <;>
    simp [h, List.getElem?_set_ne hne]

theorem resetStep_getElem_self (base : List (Vec3 ℚ)) (side : Side)
    (bl : List (Vec3 ℚ)) (i : Nat) (sd : Side) (b v : Vec3 ℚ)
    (hb : base[i]? = some b) (hv : bl[i]? = some v) :
    (resetStep base side bl (i, sd))[i]? =
      some (if b ≠ v then
              (if sd = side then b
               else if sd = Side.center then midpoint3 b v else v)
            else v) := by
  have hlt : i < bl.length := by
    rcases List.getElem?_eq_some.mp hv with ⟨h, _⟩
    exact h
  rw [resetStep]
  simp only [hb, hv]
  split_ifs with h1 h2 h3
  · simp [List.getElem?_set_eq_of_lt _ hlt]
  · simp [List.getElem?_set_eq_of_lt _ hlt]
  · exact hv
  · exact hv

theorem resetFold_length (base : List (Vec3 ℚ)) (side : Side) :
    ∀ (L : List (Nat × Side)) (bl : List (Vec3 ℚ)),
      (L.foldl (resetStep base side) bl).length = bl.length := by
  intro L
  induction L with
  | nil => intro bl; rfl
  | cons e L ih =>
    intro bl
    rw [List.foldl_cons, ih, resetStep_length]

theorem resetFold_getElem_not_mem (base : List (Vec3 ℚ)) (side : Side) :
    ∀ (L : List (Nat × Side)) (bl : List (Vec3 ℚ)) (j : Nat),
      (∀ sd, ((j, sd) : Nat × Side) ∉ L) →
      (L.foldl (resetStep base side) bl)[j]? = bl[j]? := by
  intro L
  induction L with
  | nil => intro bl j _; rfl
  | cons e L ih =>
    intro bl j hj
    have hk : e.1 ≠ j := by
      intro h
      exact hj e.2 (by
        have : e = (j, e.2) := by
          rw [← h]
        rw [← this]
        exact List.mem_cons_self _ _)
    rw [List.foldl_cons,
      ih _ _ (fun sd hsd => hj sd (List.mem_cons_of_mem _ hsd)),
      resetStep_getElem_ne _ _ _ _ _ hk]

theorem resetFold_getElem_mem (base : List (Vec3 ℚ)) (side : Side) :
    ∀ (L : List (Nat × Side)) (bl : List (Vec3 ℚ)) (j : Nat) (sd : Side)
      (b v : Vec3 ℚ),
      (L.map Prod.fst).Nodup → ((j, sd) : Nat × Side) ∈ L →
      base[j]? = some b → bl[j]? = some v →
      (L.foldl (resetStep base side) bl)[j]? =
        some (if b ≠ v then
                (if sd = side then b
                 else if sd = Side.center then midpoint3 b v else v)
              else v) := by
  intro L
  induction L with
  | nil =>
    intro bl j sd b v _ hmem
    cases hmem
  | cons e L ih =>
    intro bl j sd b v hnd hmem hb hv
    rw [List.map_cons, List.nodup_cons] at hnd
    rcases List.mem_cons.mp hmem with heq | hmem2
    · have he : e = (j, sd) := heq.symm
      subst he
      rw [List.foldl_cons]
      rw [resetFold_getElem_not_mem base side L _ j
        (fun sd2 hsd2 => hnd.1 (List.mem_map.mpr ⟨(j, sd2), hsd2, rfl⟩))]
      exact resetStep_getElem_self base side bl j sd b v hb hv
    · have hk : e.1 ≠ j := by
        intro h
        exact hnd.1 (List.mem_map.mpr ⟨(j, sd), hmem2, h.symm⟩)
      rw [List.foldl_cons]
      exact ih _ j sd b v hnd.2 hmem2 hb
        (by rw [resetStep_getElem_ne _ _ _ _ _ hk]; exact hv)

theorem sortVerticies_mem_self (mesh : List (Vec3 ℚ)) (i : Nat)
    (hi : i < mesh.length) :
    (i, sideOfX (mesh.getD i 0).x) ∈ sortVerticies mesh :=
  List.mem_map.mpr ⟨i, List.mem_range.mpr hi, rfl⟩

theorem sortVerticies_map_fst (mesh : List (Vec3 ℚ)) :
    (sortVerticies mesh).map Prod.fst = List.range mesh.length := by
  simp [sortVerticies, List.map_map, Function.comp_def]

/-- C5.  For matching vertex indexing, `resetSide` acts independently on each
blendshape mesh; on each mesh a vertex classified (on the base mesh) on the
side being reset whose position differs from the base is set to the base
position, a `center` vertex whose position differs is set to the midpoint of
the base and blendshape positions, and a vertex of the opposite side — or one
already at its base position — is unchanged. -/
theorem resetSide_spec (lBlendshapeMeshes : List (List (Vec3 ℚ)))
    (xBaseMesh : List (Vec3 ℚ)) (side : Side)
    (hside : side = Side.left ∨ side = Side.right) :
    resetSide lBlendshapeMeshes xBaseMesh side =
      lBlendshapeMeshes.map (fun m => resetOne xBaseMesh m side)
    ∧ ∀ blend ∈ lBlendshapeMeshes, blend.length = xBaseMesh.length →
        (resetOne xBaseMesh blend side).length = blend.length
        ∧ ∀ i, i < blend.length →
            ((sideOfX (xBaseMesh.getD i 0).x = side →
                xBaseMesh.getD i 0 ≠ blend.getD i 0 →
                (resetOne xBaseMesh blend side)[i]? = some (xBaseMesh.getD i 0))
            ∧ (sideOfX (xBaseMesh.getD i 0).x = Side.center →
                xBaseMesh.getD i 0 ≠ blend.getD i 0 →
                (resetOne xBaseMesh blend side)[i]? =
                  some (midpoint3 (xBaseMesh.getD i 0) (blend.getD i 0)))
            ∧ (sideOfX (xBaseMesh.getD i 0).x ≠ side →
                sideOfX (xBaseMesh.getD i 0).x ≠ Side.center →
                (resetOne xBaseMesh blend side)[i]? = some (blend.getD i 0))
            ∧ (xBaseMesh.getD i 0 = blend.getD i 0 →
                (resetOne xBaseMesh blend side)[i]? = some (blend.getD i 0))) := by
  refine ⟨rfl, ?_⟩
  intro blend _ hlen
  refine ⟨resetFold_length xBaseMesh side _ blend, ?_⟩
  intro i hi
  have hib : i < xBaseMesh.length := hlen ▸ hi
  have hb : xBaseMesh[i]? = some (xBaseMesh.getD i 0) := by
    simp [List.getElem?_eq_getElem hib]
  have hv : blend[i]? = some (blend.getD i 0) := by
    simp [List.getElem?_eq_getElem hi]
  have hnd : ((sortVerticies xBaseMesh).map Prod.fst).Nodup := by
    rw [sortVerticies_map_fst]
    exact List.nodup_range _
  have hmem := sortVerticies_mem_self xBaseMesh i hib
  have hkey := resetFold_getElem_mem xBaseMesh side (sortVerticies xBaseMesh)
    blend i (sideOfX (xBaseMesh.getD i 0).x) (xBaseMesh.getD i 0)
    (blend.getD i 0) hnd hmem hb hv
  rw [resetOne] at *
  refine ⟨?_, ?_, ?_, ?_⟩
  · intro hsd hne
    rw [hkey, if_pos hne, if_pos hsd]
  · intro hsd hne
    have hnotside : sideOfX (xBaseMesh.getD i 0).x ≠ side := by
      rw [hsd]
      rcases hside with h | h <;> rw [h] <;> intro hc <;> cases hc
    rw [hkey, if_pos hne, if_neg hnotside, if_pos hsd]
  · intro hs1 hs2
    rcases eq_or_ne (xBaseMesh.getD i 0) (blend.getD i 0) with he | he
    · rw [hkey, if_neg (fun hh => hh he)]
    · rw [hkey, if_pos he, if_neg hs1, if_neg hs2]
  · intro heq
    rw [hkey, if_neg (fun hh => hh heq)]

/-- Witness for C5 on a concrete three-vertex base/blendshape pair. -/
theorem resetSide_spec_witness :
    (resetOne [⟨1,0,0⟩, ⟨-1,0,0⟩, ⟨0,0,0⟩] [⟨2,0,0⟩, ⟨-2,0,0⟩, ⟨4,0,0⟩]
      Side.left)[0]? = some (⟨1,0,0⟩ : Vec3 ℚ) := by
  have h := ((resetSide_spec [[⟨2,0,0⟩, ⟨-2,0,0⟩, ⟨4,0,0⟩]]
      [⟨1,0,0⟩, ⟨-1,0,0⟩, ⟨0,0,0⟩] Side.left (Or.inl rfl)).2
      [⟨2,0,0⟩, ⟨-2,0,0⟩, ⟨4,0,0⟩] (List.mem_singleton.mpr rfl) rfl).2
      0 (by norm_num)
  refine h.1 (show sideOfX (1 : ℚ) = Side.left from
    sideOfX_of_pos 1 (by norm_num) (by norm_num)) ?_
  intro hh
  have h2 := congrArg Vec3.x hh
  norm_num at h2

/-! ### Theorems for namespace splitting -/

theorem rsplitColon_none_iff : ∀ u : List Char, rsplitColon u = none ↔ ':' ∉ u
  | [] => by simp [rsplitColon]
  | c :: rest => by
    have ih := rsplitColon_none_iff rest
    cases h : rsplitColon rest with
    | some p =>
      obtain ⟨a, b⟩ := p
      have hmem : ':' ∈ rest := by
        by_contra hn
        rw [ih.mpr hn] at h
        cases h
      simp [rsplitColon, h, hmem]
    | none =>
      have hrest : ':' ∉ rest := ih.mp h
      by_cases hc : c = ':'
      · subst hc
        simp [rsplitColon, h]
      · have hc2 : ¬(':' = c) := fun hh => hc hh.symm
        simp [rsplitColon, h, hc, hc2, hrest]

theorem rsplitColon_some_spec :
    ∀ (u a b : List Char), rsplitColon u = some (a, b) →
      u = a ++ ':' :: b ∧ ':' ∉ b
  | [] => by
    intro a b h
    simp [rsplitColon] at h
  | c :: rest => by
    intro a b hres
    cases h : rsplitColon rest with
    | some p =>
      obtain ⟨a', b'⟩ := p
      obtain ⟨ih1, ih2⟩ := rsplitColon_some_spec rest a' b' h
      simp only [rsplitColon, h] at hres
      injection hres with hres2
      injection hres2 with hresa hresb
      subst hresa
      subst hresb
      constructor
      · rw [List.cons_append, ih1]
      · exact ih2
    | none =>
      simp only [rsplitColon, h] at hres
      by_cases hc : c = ':'
      · rw [if_pos hc] at hres
        injection hres with hres2
        injection hres2 with hresa hresb
        subst hresa
        subst hresb
        subst hc
        exact ⟨rfl, (rsplitColon_none_iff rest).mp h⟩
      · rw [if_neg hc] at hres
        cases hres

/-- C9.  The namespace split round-trips: for a string without a colon,
`getNamespace` is empty and `getObjectName` is the whole string; otherwise
`getNamespace u ++ ':' ++ getObjectName u` reassembles `u`, and
`getObjectName u` (the part after the last colon) contains no colon. -/
theorem namespaceSplit_roundtrip (u : List Char) :
    ((':' ∉ u) → getNamespace u = [] ∧ getObjectName u = u)
    ∧ ((':' ∈ u) → getNamespace u ++ ':' :: getObjectName u = u
        ∧ ':' ∉ getObjectName u) := by
  constructor
  · intro hnot
    have h := (rsplitColon_none_iff u).mpr hnot
    rw [getNamespace, getObjectName, h]
    exact ⟨rfl, rfl⟩
  · intro hmem
    cases h : rsplitColon u with
    | none => exact absurd hmem ((rsplitColon_none_iff u).mp h)
    | some p =>
      obtain ⟨a, b⟩ := p
      obtain ⟨hu, hb⟩ := rsplitColon_some_spec u a b h
      rw [getNamespace, getObjectName, h]
      exact ⟨hu.symm, hb⟩

/-- Witness for C9 on the concrete string "a:b". -/
theorem namespaceSplit_roundtrip_witness :
    getNamespace ['a', ':', 'b'] ++ ':' :: getObjectName ['a', ':', 'b'] =
      ['a', ':', 'b']
    ∧ ':' ∉ getObjectName ['a', ':', 'b'] :=
  (namespaceSplit_roundtrip ['a', ':', 'b']).2 (by decide)

/-! ### Theorems for getHierarchy -/

theorem ancestorAt_one (par : Nat → Option Nat) (x : Nat) :
    ancestorAt par 1 x = par x := by
  cases h : par x <;> simp [ancestorAt, h]

theorem ancestorAt_add (par : Nat → Option Nat) :
    ∀ (a b x : Nat),
      ancestorAt par (a + b) x = (ancestorAt par a x).bind (ancestorAt par b) := by
  intro a
  induction a with
  | zero =>
    intro b x
    rw [Nat.zero_add]
    rfl
  | succ a ih =>
    intro b x
    rw [Nat.succ_add]
    show (par x).bind (ancestorAt par (a + b)) =
      ((par x).bind (ancestorAt par a)).bind (ancestorAt par b)
    cases hp : par x with
    | none => rfl
    | some y => simp [ih]

theorem descendsWithin_iff (par : Nat → Option Nat) :
    ∀ (fuel s e : Nat),
      descendsWithin par fuel s e = true ↔
        ∃ k, 1 ≤ k ∧ k ≤ fuel ∧ ancestorAt par k e = some s := by
  intro fuel
  induction fuel with
  | zero =>
    intro s e
    simp only [descendsWithin]
    constructor
    · intro h; cases h
    · rintro ⟨k, hk1, hk2, _⟩; omega
  | succ fuel ih =>
    intro s e
    cases hp : par e with
    | none =>
      simp only [descendsWithin, hp]
      constructor
      · intro h; cases h
      · rintro ⟨k, hk1, hk2, hk3⟩
        cases k with
        | zero => omega
        | succ m =>
          rw [show ancestorAt par (m + 1) e = (par e).bind (ancestorAt par m)
            from rfl, hp] at hk3
          cases hk3
    | some p =>
      simp only [descendsWithin, hp, Bool.or_eq_true, decide_eq_true_eq]
      constructor
      · rintro (hps | hrec)
        · exact ⟨1, le_refl 1, by omega, by rw [ancestorAt_one, hp, hps]⟩
        · obtain ⟨k, hk1, hk2, hk3⟩ := (ih s p).mp hrec
          refine ⟨k + 1, by omega, by omega, ?_⟩
          rw [show ancestorAt par (k + 1) e = (par e).bind (ancestorAt par k)
            from rfl, hp]
          exact hk3
      · rintro ⟨k, hk1, hk2, hk3⟩
        cases k with
        | zero => omega
        | succ m =>
          rw [show ancestorAt par (m + 1) e = (par e).bind (ancestorAt par m)
            from rfl, hp] at hk3
          cases m with
          | zero =>
            left
            rw [show ((some p).bind (ancestorAt par 0) : Option Nat) = some p
              from rfl] at hk3
            exact Option.some.inj hk3
          | succ m2 =>
            right
            exact (ih s p).mpr ⟨m2 + 1, by omega, by omega, hk3⟩

theorem walkUp_spec (par : Nat → Option Nat) (s : Nat) :
    ∀ (k e fuel : Nat), ancestorAt par k e = some s → k ≤ fuel →
      ∃ l, walkUp par s fuel e = some l ∧ l.head? = some s ∧
        l.getLast? = some e ∧ List.Chain' (fun a b => par b = some a) l := by
  intro k
  induction k with
  | zero =>
    intro e fuel hk _
    rw [show ancestorAt par 0 e = some e from rfl] at hk
    injection hk with he
    subst he
    refine ⟨[e], ?_, rfl, rfl, List.chain'_singleton e⟩
    cases fuel <;> simp [walkUp]
  | succ k ih =>
    intro e fuel hk hle
    by_cases hes : e = s
    · subst hes
      refine ⟨[e], ?_, rfl, rfl, List.chain'_singleton e⟩
      cases fuel <;> simp [walkUp]
    · cases fuel with
      | zero => omega
      | succ f =>
        rw [show ancestorAt par (k + 1) e = (par e).bind (ancestorAt par k)
          from rfl] at hk
        cases hp : par e with
        | none => rw [hp] at hk; cases hk
        | some p =>
          rw [hp] at hk
          obtain ⟨l, hw, hh, hl, hc⟩ := ih p f hk (by omega)
          refine ⟨l ++ [e], ?_, ?_, ?_, ?_⟩
          · rw [walkUp, if_neg hes]
            simp only [hp, hw, Option.map_some']
          · rw [List.head?_append, hh]
            rfl
          · exact List.getLast?_concat l
          · rw [List.chain'_append]
            refine ⟨hc, List.chain'_singleton e, ?_⟩
            intro x hx y hy
            rw [hl] at hx
            simp only [Option.mem_def, Option.some_inj] at hx
            simp only [List.head?_cons, Option.mem_def, Option.some_inj] at hy
            subst hx
            subst hy
            exact hp

/-- C6.  `getHierarchy` errors exactly when `xEnd` is not a descendant of
`xStart` (assuming the search fuel suffices to witness any existing
descendant chain); in particular it errors when the two nodes are equal
(given acyclicity of the parent chain at `xEnd`); and a successful result is
the ordered parent-pointer path: it starts at `xStart`, ends at `xEnd`, and
each element is the parent of the next. -/
theorem getHierarchy_spec (par : Nat → Option Nat) (fuel s e : Nat)
    (hfuel : (∃ k, 1 ≤ k ∧ ancestorAt par k e = some s) →
      ∃ k, 1 ≤ k ∧ k ≤ fuel ∧ ancestorAt par k e = some s)
    (hacyc : ∀ k, 1 ≤ k → ancestorAt par k e ≠ some e) :
    (getHierarchy par fuel s e = Except.error () ↔
      ¬∃ k, 1 ≤ k ∧ ancestorAt par k e = some s)
    ∧ (s = e → getHierarchy par fuel s e = Except.error ())
    ∧ ∀ l, getHierarchy par fuel s e = Except.ok l →
        l.head? = some s ∧ l.getLast? = some e ∧
          List.Chain' (fun a b => par b = some a) l := by
  by_cases hdw : descendsWithin par fuel s e = true
  · obtain ⟨k, hk1, hk2, hk3⟩ := (descendsWithin_iff par fuel s e).mp hdw
    obtain ⟨l0, hw, hh, hl, hc⟩ := walkUp_spec par s k e fuel hk3 hk2
    have hres : getHierarchy par fuel s e = Except.ok l0 := by
      rw [getHierarchy, if_pos hdw, hw]
    refine ⟨?_, ?_, ?_⟩
    · constructor
      · intro habs
        rw [hres] at habs
        cases habs
      · intro hnone
        exact absurd ⟨k, hk1, hk3⟩ hnone
    · intro hse
      exfalso
      rw [hse] at hk3
      exact hacyc k hk1 hk3
    · intro l hok
      rw [hres] at hok
      injection hok with hle
      subst hle
      exact ⟨hh, hl, hc⟩
  · have hres : getHierarchy par fuel s e = Except.error () := by
      rw [getHierarchy, if_neg hdw]
    refine ⟨?_, fun _ => hres, ?_⟩
    · constructor
      · intro _ hex
        exact hdw ((descendsWithin_iff par fuel s e).mpr (hfuel hex))
      · intro _
        exact hres
    · intro l hok
      rw [hres] at hok
      cases hok

/-- Witness for C6 on the one-node-parent-map-free scene: the walk from node
1 to node 0 errors because 1 is no descendant of 0. -/
theorem getHierarchy_spec_witness :
    getHierarchy (fun _ => none) 1 0 1 = Except.error () := by
  have hanc : ∀ k, 1 ≤ k → ancestorAt (fun _ => none) k 1 = none := by
    intro k hk
    cases k with
    | zero => omega
    | succ m => rfl
  have h := getHierarchy_spec (fun _ => none) 1 0 1
    (fun hex => absurd hex (by
      rintro ⟨k, hk1, hk3⟩
      rw [hanc k hk1] at hk3
      cases hk3))
    (by
      intro k hk1 hc
      rw [hanc k hk1] at hc
      cases hc)
  exact h.1.mpr (by
    rintro ⟨k, hk1, hk3⟩
    rw [hanc k hk1] at hk3
    cases hk3)

/-! ### Theorems for checkContinuousHierarchy -/

theorem sublist_insertIdx {α : Type} (a : α) :
    ∀ (n : Nat) (l : List α), List.Sublist l (l.insertIdx n a)
  | 0, l => List.sublist_cons_self a l
  | _ + 1, [] => List.Sublist.refl []
  | n + 1, x :: l => by
    rw [List.insertIdx_succ_cons]
    exact List.Sublist.cons₂ x (sublist_insertIdx a n l)

theorem checkCH_go (par : Nat → Option Nat) (first : Nat) (A : Finset Nat)
    (Q : Nat → Prop)
    (hpar : ∀ x, Q x → ∃ p, par x = some p)
    (hstep : ∀ x p, Q x → par x = some p → p = first ∨ Q p)
    (hA : ∀ x, Q x → x ∈ A) :
    ∀ (N : Nat) (t : List Nat) (i : Nat),
      (∀ x ∈ t, Q x) → 1 ≤ i → i ≤ (first :: t).length →
      (∀ j (hj : j < (first :: t).length), 1 ≤ j → j < i →
        ∃ q, par ((first :: t).get ⟨j, hj⟩) = some q ∧ q ∈ (first :: t)) →
      2 * (A \ (first :: t).toFinset).card + ((first :: t).length - i) ≤ N →
      ∃ lr : List Nat,
        (∀ fuel, N < fuel →
          checkContinuousHierarchy par fuel (first :: t) i = some lr)
        ∧ List.Sublist (first :: t) lr
        ∧ lr.head? = some first
        ∧ ∀ j (hj : j < lr.length), 1 ≤ j →
            ∃ q, par (lr.get ⟨j, hj⟩) = some q ∧ q ∈ lr := by
  intro N
  induction N with
  | zero =>
    intro t i ht h1i hile hI4 hbound
    have hnlt : ¬ (i < (first :: t).length) := by omega
    refine ⟨first :: t, ?_, List.Sublist.refl _, rfl, ?_⟩
    · intro fuel hf
      cases fuel with
      | zero => omega
      | succ f => rw [checkContinuousHierarchy, dif_neg hnlt]
    · intro j hj h1j
      exact hI4 j hj h1j (by omega)
  | succ N ih =>
    intro t i ht h1i hile hI4 hbound
    by_cases hlt : i < (first :: t).length
    · -- the loop body runs
      obtain ⟨i0, rfl⟩ : ∃ i0, i = i0 + 1 := ⟨i - 1, by omega⟩
      have hxQ : Q ((first :: t).get ⟨i0 + 1, hlt⟩) := by
        rw [List.get_cons_succ]
        exact ht _ (List.get_mem t _ _)
      obtain ⟨p, hp⟩ := hpar _ hxQ
      by_cases hpm : p ∈ (first :: t)
      · -- increment branch
        have hI4' : ∀ j (hj : j < (first :: t).length), 1 ≤ j → j < i0 + 1 + 1 →
            ∃ q, par ((first :: t).get ⟨j, hj⟩) = some q ∧ q ∈ (first :: t) := by
          intro j hj h1j hji
          rcases Nat.lt_or_ge j (i0 + 1) with hlt2 | hge
          · exact hI4 j hj h1j hlt2
          · have hji2 : j = i0 + 1 := by omega
            subst hji2
            exact ⟨p, hp, hpm⟩
        obtain ⟨lr, hfl, hsub, hhead, hclos⟩ := ih t (i0 + 1 + 1) ht (by omega)
          (by omega) hI4' (by
            have h1 : (i0 + 1) < (first :: t).length := hlt
            omega)
        refine ⟨lr, ?_, hsub, hhead, hclos⟩
        intro fuel hf
        cases fuel with
        | zero => omega
        | succ f =>
          rw [checkContinuousHierarchy, dif_pos hlt]
          simp only [hp]
          rw [if_pos hpm]
          exact hfl f (by omega)
      · -- insert branch
        have hi0len : i0 < t.length := by
          have := hlt
          simp only [List.length_cons] at this
          omega
        have hi0le : i0 ≤ t.length := le_of_lt hi0len
        have hQp : Q p := by
          rcases hstep _ p hxQ hp with hpf | hqp
          · exfalso
            rw [hpf] at hpm
            exact hpm (List.mem_cons_self _ _)
          · exact hqp
        have htmem' : ∀ y ∈ t.insertIdx i0 p, Q y := by
          intro y hy
          rcases (List.mem_insertIdx hi0le).mp hy with rfl | hyt
          · exact hQp
          · exact ht y hyt
        have hlen' : (t.insertIdx i0 p).length = t.length + 1 :=
          List.length_insertIdx i0 t hi0le
        have htf : (first :: t.insertIdx i0 p).toFinset =
            insert p ((first :: t).toFinset) := by
          ext y
          simp only [List.toFinset_cons, Finset.mem_insert, List.mem_toFinset,
            List.mem_insertIdx hi0le]
          tauto
        have hpA : p ∈ A := hA p hQp
        have hpnot : p ∉ (first :: t).toFinset :=
          fun hmem => hpm (List.mem_toFinset.mp hmem)
        have hpsd : p ∈ A \ (first :: t).toFinset :=
          Finset.mem_sdiff.mpr ⟨hpA, hpnot⟩
        have hcard : (A \ (first :: t.insertIdx i0 p).toFinset).card =
            (A \ (first :: t).toFinset).card - 1 := by
          rw [htf, Finset.sdiff_insert, Finset.card_erase_of_mem hpsd]
        have hcpos : 1 ≤ (A \ (first :: t).toFinset).card :=
          Finset.card_pos.mpr ⟨p, hpsd⟩
        have hI4' : ∀ j (hj : j < (first :: t.insertIdx i0 p).length), 1 ≤ j →
            j < i0 + 1 →
            ∃ q, par ((first :: t.insertIdx i0 p).get ⟨j, hj⟩) = some q ∧
              q ∈ (first :: t.insertIdx i0 p) := by
          intro j hj h1j hji
          obtain ⟨j0, rfl⟩ : ∃ j0, j = j0 + 1 := ⟨j - 1, by omega⟩
          have hj0i : j0 < i0 := by omega
          have hj0t : j0 < t.length := by omega
          have hjold : j0 + 1 < (first :: t).length := by
            simp only [List.length_cons]
            omega
          obtain ⟨q, hq, hqm⟩ := hI4 (j0 + 1) hjold h1j hji
          refine ⟨q, ?_, ?_⟩
          · rw [List.get_cons_succ, List.get_insertIdx_of_lt t p i0 j0 hj0i hj0t]
            rw [List.get_cons_succ] at hq
            exact hq
          · rcases List.mem_cons.mp hqm with rfl | hqt
            · exact List.mem_cons_self _ _
            · exact List.mem_cons_of_mem _ ((List.mem_insertIdx hi0le).mpr
                (Or.inr hqt))
        obtain ⟨lr, hfl, hsub, hhead, hclos⟩ := ih (t.insertIdx i0 p) (i0 + 1)
          htmem' (by omega)
          (by simp only [List.length_cons, hlen']; omega) hI4' (by
            simp only [List.length_cons, hlen', hcard]
            have h1 : (i0 + 1) < (first :: t).length := hlt
            simp only [List.length_cons] at h1 hbound
            omega)
        refine ⟨lr, ?_, ?_, hhead, hclos⟩
        · intro fuel hf
          cases fuel with
          | zero => omega
          | succ f =>
            rw [checkContinuousHierarchy, dif_pos hlt]
            simp only [hp]
            rw [if_neg hpm]
            simp only [List.insertIdx_succ_cons]
            exact hfl f (by omega)
        · exact List.Sublist.trans
            (List.Sublist.cons₂ first (sublist_insertIdx p i0 t)) hsub
    · -- the index has passed the end of the list
      refine ⟨first :: t, ?_, List.Sublist.refl _, rfl, ?_⟩
      · intro fuel hf
        cases fuel with
        | zero => omega
        | succ f => rw [checkContinuousHierarchy, dif_neg hlt]
      · intro j hj h1j
        exact hI4 j hj h1j (by omega)

/-- C10.  For a list headed by a node that is a strict ancestor of every
other listed node, `checkContinuousHierarchy` terminates (any fuel beyond
some bound returns the same fixed result), returns a list containing the
input as a subsequence (all input elements in their original relative
order), still headed by the first node, in which every element other than
the head has its parent present in the list. -/
theorem checkContinuousHierarchy_spec (par : Nat → Option Nat) (first : Nat)
    (rest : List Nat)
    (hanc : ∀ x ∈ rest, ∃ k, 1 ≤ k ∧ ancestorAt par k x = some first) :
    ∃ fuel0 lr,
      (∀ fuel, fuel0 ≤ fuel →
        checkContinuousHierarchy par fuel (first :: rest) 1 = some lr)
      ∧ List.Sublist (first :: rest) lr
      ∧ lr.head? = some first
      ∧ ∀ j (hj : j < lr.length), 1 ≤ j →
          ∃ p, par (lr.get ⟨j, hj⟩) = some p ∧ p ∈ lr := by
  classical
  -- choose, for each listed node, the length of its ancestor chain to `first`
  set d : Nat → Nat := fun x =>
    if hx : x ∈ rest then (hanc x hx).choose else 0 with hd_def
  have hd : ∀ x, x ∈ rest → 1 ≤ d x ∧ ancestorAt par (d x) x = some first := by
    intro x hx
    rw [hd_def]
    simp only [dif_pos hx]
    exact (hanc x hx).choose_spec
  -- all strict ancestors of listed nodes below `first`
  set A : Finset Nat :=
    (rest.map (fun o => (List.range (d o)).filterMap
      (fun j => ancestorAt par j o))).flatten.toFinset with hA_def
  set Q : Nat → Prop :=
    fun x => ∃ o, o ∈ rest ∧ ∃ m, m < d o ∧ ancestorAt par m o = some x
    with hQ_def
  have hA : ∀ x, Q x → x ∈ A := by
    intro x ⟨o, ho, m, hm, ham⟩
    rw [hA_def]
    rw [List.mem_toFinset, List.mem_flatten]
    refine ⟨(List.range (d o)).filterMap (fun j => ancestorAt par j o),
      List.mem_map.mpr ⟨o, ho, rfl⟩, ?_⟩
    exact List.mem_filterMap.mpr ⟨m, List.mem_range.mpr hm, ham⟩
  have hparQ : ∀ x, Q x → ∃ p, par x = some p := by
    intro x ⟨o, ho, m, hm, ham⟩
    have hdo := (hd o ho).2
    have hsplit : d o = m + (d o - m) := by omega
    rw [hsplit, ancestorAt_add, ham] at hdo
    obtain ⟨r, hr⟩ : ∃ r, d o - m = r + 1 := ⟨d o - m - 1, by omega⟩
    rw [hr] at hdo
    rw [show ((some x).bind (ancestorAt par (r + 1)) : Option Nat) =
      ancestorAt par (r + 1) x from rfl] at hdo
    rw [show ancestorAt par (r + 1) x = (par x).bind (ancestorAt par r)
      from rfl] at hdo
    cases hpx : par x with
    | none => rw [hpx] at hdo; cases hdo
    | some q => exact ⟨q, rfl⟩
  have hstepQ : ∀ x p, Q x → par x = some p → p = first ∨ Q p := by
    intro x p hQx hpx
    obtain ⟨o, ho, m, hm, ham⟩ := hQx
    have ham1 : ancestorAt par (m + 1) o = some p := by
      rw [ancestorAt_add, ham]
      rw [show ((some x).bind (ancestorAt par 1) : Option Nat) =
        ancestorAt par 1 x from rfl, ancestorAt_one, hpx]
    rcases Nat.lt_or_ge (m + 1) (d o) with hlt | hge
    · exact Or.inr ⟨o, ho, m + 1, hlt, ham1⟩
    · have heq : m + 1 = d o := by omega
      left
      have hdo := (hd o ho).2
      rw [← heq] at hdo
      rw [ham1] at hdo
      exact Option.some.inj hdo
  have hQ0 : ∀ x ∈ rest, Q x := by
    intro x hx
    exact ⟨x, hx, 0, by have := (hd x hx).1; omega, rfl⟩
  obtain ⟨lr, hfl, hsub, hhead, hclos⟩ := checkCH_go par first A Q hparQ hstepQ hA
    (2 * (A \ (first :: rest).toFinset).card + ((first :: rest).length - 1))
    rest 1 hQ0 (le_refl 1) (by simp) (by intro j hj h1j hj1; omega) (le_refl _)
  exact ⟨2 * (A \ (first :: rest).toFinset).card + ((first :: rest).length - 1)
    + 1, lr, fun fuel hf => hfl fuel (by omega), hsub, hhead, hclos⟩

/-- Witness for C10 on the two-node chain 1 → 0. -/
theorem checkContinuousHierarchy_spec_witness :
    ∃ fuel0 lr,
      (∀ fuel, fuel0 ≤ fuel →
        checkContinuousHierarchy (fun x => if x = 1 then some 0 else none)
          fuel [0, 1] 1 = some lr)
      ∧ List.Sublist [0, 1] lr
      ∧ lr.head? = some 0
      ∧ ∀ j (hj : j < lr.length), 1 ≤ j →
          ∃ p, (fun x => if x = 1 then some 0 else none) (lr.get ⟨j, hj⟩) =
            some p ∧ p ∈ lr := by
  have h := checkContinuousHierarchy_spec
    (fun x => if x = 1 then some 0 else none) 0 [1] (by
      intro x hx
      have hx1 : x = 1 := by simpa using hx
      subst hx1
      exact ⟨1, le_refl 1, rfl⟩)
  exact h

/-! ### Theorems for reposition -/

theorem alook_cons_self {β : Type} (k : Nat) (v : β) (l : List (Nat × β)) :
    alook k ((k, v) :: l) = some v := by
  simp [alook]

theorem alook_cons_ne {β : Type} (k k2 : Nat) (v : β) (l : List (Nat × β))
    (h : k2 ≠ k) : alook k ((k2, v) :: l) = alook k l := by
  simp [alook, h]

theorem alook_setLoc_ne (s : Scene) (m : Nat) (a : Aff) (n : Nat)
    (h : n ≠ m) : alook n (Scene.setLoc s m a).loc = alook n s.loc := by
  simp [Scene.setLoc, alook, Ne.symm h]

theorem framePreserved_refl (s : Scene) : framePreserved s s :=
  ⟨rfl, rfl, rfl, rfl, rfl, rfl, rfl, rfl, rfl, rfl⟩

theorem framePreserved_trans {a b c : Scene} (h1 : framePreserved a b)
    (h2 : framePreserved b c) : framePreserved a c :=
  ⟨h2.1.trans h1.1, h2.2.1.trans h1.2.1, h2.2.2.1.trans h1.2.2.1,
   h2.2.2.2.1.trans h1.2.2.2.1, h2.2.2.2.2.1.trans h1.2.2.2.2.1,
   h2.2.2.2.2.2.1.trans h1.2.2.2.2.2.1,
   h2.2.2.2.2.2.2.1.trans h1.2.2.2.2.2.2.1,
   h2.2.2.2.2.2.2.2.1.trans h1.2.2.2.2.2.2.2.1,
   h2.2.2.2.2.2.2.2.2.1.trans h1.2.2.2.2.2.2.2.2.1,
   h2.2.2.2.2.2.2.2.2.2.trans h1.2.2.2.2.2.2.2.2.2⟩

theorem snapTo_spec (fuel : Nat) (s : Scene) (k : CKind) (lParent : List Nat)
    (uChild : Nat) :
    framePreserved s (snapTo fuel s k lParent uChild)
    ∧ (snapTo fuel s k lParent uChild).constraints = s.constraints
    ∧ (snapTo fuel s k lParent uChild).created = s.created
    ∧ (snapTo fuel s k lParent uChild).nextId = s.nextId
    ∧ ∀ n, n ≠ uChild →
        alook n (snapTo fuel s k lParent uChild).loc = alook n s.loc := by
  cases k with
  | poleVectorC =>
    exact ⟨framePreserved_refl s, rfl, rfl, rfl, fun n _ => rfl⟩
  | pointC =>
    refine ⟨⟨rfl, rfl, rfl, rfl, rfl, rfl, rfl, rfl, rfl, rfl⟩, rfl, rfl, rfl,
      fun n hn => ?_⟩
    exact alook_setLoc_ne _ _ _ n hn
  | orientC =>
    refine ⟨⟨rfl, rfl, rfl, rfl, rfl, rfl, rfl, rfl, rfl, rfl⟩, rfl, rfl, rfl,
      fun n hn => ?_⟩
    exact alook_setLoc_ne _ _ _ n hn
  | parentC =>
    refine ⟨⟨rfl, rfl, rfl, rfl, rfl, rfl, rfl, rfl, rfl, rfl⟩, rfl, rfl, rfl,
      fun n hn => ?_⟩
    exact alook_setLoc_ne _ _ _ n hn

theorem repositionStep_spec (fuel : Nat) (s : Scene) (k : CKind)
    (lParent : List Nat) (uChild : Nat) :
    framePreserved s
      (deleteConstraint (addConstraint fuel s k lParent uChild).2
        (addConstraint fuel s k lParent uChild).1)
    ∧ (deleteConstraint (addConstraint fuel s k lParent uChild).2
        (addConstraint fuel s k lParent uChild).1).constraints = s.constraints
    ∧ (deleteConstraint (addConstraint fuel s k lParent uChild).2
        (addConstraint fuel s k lParent uChild).1).created =
        (s.nextId, k) :: s.created
    ∧ (deleteConstraint (addConstraint fuel s k lParent uChild).2
        (addConstraint fuel s k lParent uChild).1).nextId = s.nextId + 1
    ∧ ∀ n, n ≠ uChild →
        alook n (deleteConstraint (addConstraint fuel s k lParent uChild).2
          (addConstraint fuel s k lParent uChild).1).loc = alook n s.loc := by
  obtain ⟨hf, hcons, hcr, hnext, hloc⟩ := snapTo_spec fuel s k lParent uChild
  obtain ⟨hp1, hp2, hp3, hp4, hp5, hp6, hp7, hp8, hp9, hp10⟩ := hf
  refine ⟨⟨hp1, hp2, hp3, hp4, hp5, hp6, hp7, hp8, hp9, hp10⟩, ?_, ?_, ?_, ?_⟩
  · show ((snapTo fuel s k lParent uChild).nextId ::
      (snapTo fuel s k lParent uChild).constraints).erase
        (snapTo fuel s k lParent uChild).nextId = s.constraints
    rw [List.erase_cons_head]
    exact hcons
  · show ((snapTo fuel s k lParent uChild).nextId, k) ::
      (snapTo fuel s k lParent uChild).created = (s.nextId, k) :: s.created
    rw [hcr, hnext]
  · show (snapTo fuel s k lParent uChild).nextId + 1 = s.nextId + 1
    rw [hnext]
  · intro n hn
    exact hloc n hn

/-- C7.  `reposition` creates, per child in order, exactly one constraint of
the kind selected by `uType` (point for 'point', orient for 'orient',
parent otherwise — visible in the creation log) and deletes it again: the
set of constraint nodes after the call equals the set before it, every
other scene aspect (parents, kinds, nodes, pivots, shape points, radii,
connections, blender values, attributes) is untouched, and only the
children's transform values change. -/
theorem reposition_spec (fuel : Nat) (s : Scene) (lParent lChild : List Nat)
    (uType : String) :
    framePreserved s (reposition fuel s lParent lChild uType)
    ∧ (reposition fuel s lParent lChild uType).constraints = s.constraints
    ∧ (reposition fuel s lParent lChild uType).created.map Prod.snd =
        List.replicate lChild.length (ckindOfType uType) ++
          s.created.map Prod.snd
    ∧ (uType = "point" → ckindOfType uType = CKind.pointC)
    ∧ (uType = "orient" → ckindOfType uType = CKind.orientC)
    ∧ (uType ≠ "point" → uType ≠ "orient" → ckindOfType uType = CKind.parentC)
    ∧ ∀ n, n ∉ lChild →
        alook n (reposition fuel s lParent lChild uType).loc =
          alook n s.loc := by
  have hsel1 : uType = "point" → ckindOfType uType = CKind.pointC := by
    intro h
    rw [ckindOfType, if_pos h]
  have hsel2 : uType = "orient" → ckindOfType uType = CKind.orientC := by
    intro h
    rw [ckindOfType, if_neg (by rw [h]; decide), if_pos h]
  have hsel3 : uType ≠ "point" → uType ≠ "orient" →
      ckindOfType uType = CKind.parentC := by
    intro h1 h2
    rw [ckindOfType, if_neg h1, if_neg h2]
  induction lChild generalizing s with
  | nil =>
    exact ⟨framePreserved_refl s, rfl, by simp [reposition], hsel1, hsel2,
      hsel3, fun n _ => rfl⟩
  | cons c cs ih =>
    have hstep := repositionStep_spec fuel s (ckindOfType uType) lParent c
    obtain ⟨hf1, hcons1, hcr1, hnext1, hloc1⟩ := hstep
    have hfold : reposition fuel s lParent (c :: cs) uType =
        reposition fuel
          (deleteConstraint (addConstraint fuel s (ckindOfType uType) lParent c).2
            (addConstraint fuel s (ckindOfType uType) lParent c).1)
          lParent cs uType := rfl
    obtain ⟨ihf, ihcons, ihcr, _, _, _, ihloc⟩ := ih
      (deleteConstraint (addConstraint fuel s (ckindOfType uType) lParent c).2
        (addConstraint fuel s (ckindOfType uType) lParent c).1)
    refine ⟨?_, ?_, ?_, hsel1, hsel2, hsel3, ?_⟩
    · rw [hfold]
      exact framePreserved_trans hf1 ihf
    · rw [hfold, ihcons, hcons1]
    · rw [hfold, ihcr, hcr1]
      rw [List.length_cons, List.replicate_succ', List.append_assoc]
      rfl
    · intro n hn
      have hn1 : n ≠ c := fun he => hn (he ▸ List.mem_cons_self c cs)
      have hn2 : n ∉ cs := fun he => hn (List.mem_cons_of_mem c he)
      rw [hfold, ihloc n hn2, hloc1 n hn1]

/-- Witness for C7 on a concrete two-node scene with a point reposition. -/
theorem reposition_spec_witness :
    (reposition 1
      { nodes := [1, 2], par := [(2, 1)],
        kind := [(1, NKind.transform), (2, NKind.transform)], loc := [],
        pivotL := [], pts := [], radius := [], conns := [], blender := [],
        constraints := [], created := [], attrIKFK := [], sdk := [],
        nextId := 3 } [1] [2] "point").constraints = [] :=
  (reposition_spec 1
    { nodes := [1, 2], par := [(2, 1)],
      kind := [(1, NKind.transform), (2, NKind.transform)], loc := [],
      pivotL := [], pts := [], radius := [], conns := [], blender := [],
      constraints := [], created := [], attrIKFK := [], sdk := [],
      nextId := 3 } [1] [2] "point").2.1

/-! ### The pole-vector branch of ikfklimb.rig -/

/-- C3 (code bug).  When the provided pole-vector control already has an
offset transform, `rig` does not reposition that offset and create the
pole-vector constraint as the claim describes: the source assigns the local
variable `xIKPVCtrlOffset` only in the `not hasOffsetXform` branch and then
reads it unconditionally, so the call dies with Python's
`UnboundLocalError` (modelled as `none`).  Concretely: a three-joint IK
chain, and control 10 whose parent 9 is an offset transform (no shape
children, a single transform child), makes `rig` fail. -/
theorem rig_pv_existing_offset_fails :
    rig 1 (fun q => q)
      { nodes := [1, 2, 3, 9, 10], par := [(2, 1), (3, 2), (10, 9)],
        kind := [(1, NKind.joint), (2, NKind.joint), (3, NKind.joint),
                 (9, NKind.transform), (10, NKind.transform)],
        loc := [], pivotL := [], pts := [], radius := [], conns := [],
        blender := [], constraints := [], created := [], attrIKFK := [],
        sdk := [], nextId := 30 }
      [1, 2, 3] [] [] none (some 10) none none = none := rfl

/-! ### Theorems for ikfklimb.create -/

theorem checkCH_closed (par : Nat → Option Nat) (l : List Nat)
    (hclosed : ∀ j (hj : j < l.length), 1 ≤ j →
      ∃ p, par (l.get ⟨j, hj⟩) = some p ∧ p ∈ l) :
    ∀ (k i : Nat), 1 ≤ i → l.length ≤ i + k →
      checkContinuousHierarchy par (k + 1) l i = some l := by
  intro k
  induction k with
  | zero =>
    intro i h1 h2
    rw [checkContinuousHierarchy, dif_neg (by omega)]
  | succ k ih =>
    intro i h1 h2
    by_cases hlt : i < l.length
    · obtain ⟨p, hp, hpm⟩ := hclosed i hlt h1
      rw [checkContinuousHierarchy, dif_pos hlt]
      simp only [hp]
      rw [if_pos hpm]
      exact ih (i + 1) (by omega) (by omega)
    · rw [checkContinuousHierarchy, dif_neg hlt]

theorem alook_none_of_ge {β : Type} (L : List (Nat × β)) (m n : Nat)
    (hL : ∀ e ∈ L, e.1 < m) (hn : m ≤ n) : alook n L = none := by
  induction L with
  | nil => rfl
  | cons e rest ih =>
    obtain ⟨k2, v⟩ := e
    have he := hL (k2, v) (List.mem_cons_self _ rest)
    rw [show alook n ((k2, v) :: rest) =
      (if k2 = n then some v else alook n rest) from rfl]
    rw [if_neg (by simp at he ⊢; omega)]
    exact ih (fun e2 he2 => hL e2 (List.mem_cons_of_mem _ he2))

theorem range_map_succ (f : Nat → Nat) (n : Nat) :
    (List.range (n + 1)).map f = f 0 :: (List.range n).map (fun t => f (t + 1)) := by
  rw [List.range_succ_eq_map, List.map_cons, List.map_map]
  rfl

theorem createLoop1_spec :
    ∀ (l : List Nat) (s : Scene),
      (∀ x ∈ l, x < s.nextId) →
      (∀ e ∈ s.par, e.1 < s.nextId) →
      (createLoop1 l s).1 = (List.range l.length).map (fun t => s.nextId + 2 * t)
      ∧ (createLoop1 l s).2.1 =
          (List.range l.length).map (fun t => s.nextId + 2 * t + 1)
      ∧ (createLoop1 l s).2.2.nextId = s.nextId + 2 * l.length
      ∧ (createLoop1 l s).2.2.conns = s.conns
      ∧ (createLoop1 l s).2.2.blender = s.blender
      ∧ (∀ e ∈ (createLoop1 l s).2.2.par, e.1 < s.nextId + 2 * l.length)
      ∧ (∀ n, n < s.nextId →
          alook n (createLoop1 l s).2.2.par = alook n s.par)
      ∧ (∀ t, ∀ ht : t < l.length,
          alook (s.nextId + 2 * t) (createLoop1 l s).2.2.par =
            alook (l.get ⟨t, ht⟩) s.par
          ∧ alook (s.nextId + 2 * t + 1) (createLoop1 l s).2.2.par =
            alook (l.get ⟨t, ht⟩) s.par) := by
  intro l
  induction l with
  | nil =>
    intro s _ hpar
    refine ⟨rfl, rfl, by simp [createLoop1], rfl, rfl, ?_, fun n _ => rfl, ?_⟩
    · intro e he
      have hb := hpar e he
      simp only [List.length_nil]
      omega
    · intro t ht
      exact absurd ht (by simp)
  | cons j rest ih =>
    intro s hl hpar
    have hj : j < s.nextId := hl j (List.mem_cons_self j rest)
    set s1 : Scene := Scene.setRadius (duplicatePO s j).2 (duplicatePO s j).1
      (Scene.radiusOf (duplicatePO s j).2 j * (7 / 10)) with hs1def
    set s2 : Scene := Scene.setRadius (duplicatePO s1 j).2 (duplicatePO s1 j).1
      (Scene.radiusOf (duplicatePO s1 j).2 j * (4 / 10)) with hs2def
    have hred : createLoop1 (j :: rest) s =
        ((duplicatePO s j).1 :: (createLoop1 rest s2).1,
         (duplicatePO s1 j).1 :: (createLoop1 rest s2).2.1,
         (createLoop1 rest s2).2.2) := rfl
    have hs1next : s1.nextId = s.nextId + 1 := rfl
    have hs2next : s2.nextId = s.nextId + 2 := rfl
    -- characterise the parent association list of s2
    have hstable : ∀ n, n < s.nextId → alook n s2.par = alook n s.par := by
      intro n hn
      cases hpj : alook j s.par with
      | none =>
        have h1 : s1.par = s.par := by
          simp [hs1def, Scene.setRadius, duplicatePO, Scene.parOf, hpj]
        have h2 : s2.par = s1.par := by
          simp [hs2def, Scene.setRadius, duplicatePO, Scene.parOf, h1, hpj]
        rw [h2, h1]
      | some p =>
        have h1 : s1.par = (s.nextId, p) :: s.par := by
          simp [hs1def, Scene.setRadius, duplicatePO, Scene.parOf, hpj]
        have hj1 : alook j ((s.nextId, p) :: s.par) = some p := by
          rw [alook_cons_ne j s.nextId p s.par (by omega), hpj]
        have h2 : s2.par = (s.nextId + 1, p) :: (s.nextId, p) :: s.par := by
          simp [hs2def, Scene.setRadius, duplicatePO, Scene.parOf, h1, hj1, hs1next]
        rw [h2, alook_cons_ne _ _ _ _ (by omega), alook_cons_ne _ _ _ _ (by omega)]
    have hnew0 : alook s.nextId s2.par = alook j s.par := by
      cases hpj : alook j s.par with
      | none =>
        have h1 : s1.par = s.par := by
          simp [hs1def, Scene.setRadius, duplicatePO, Scene.parOf, hpj]
        have h2 : s2.par = s1.par := by
          simp [hs2def, Scene.setRadius, duplicatePO, Scene.parOf, h1, hpj]
        rw [h2, h1]
        exact alook_none_of_ge s.par s.nextId s.nextId hpar (le_refl _)
      | some p =>
        have h1 : s1.par = (s.nextId, p) :: s.par := by
          simp [hs1def, Scene.setRadius, duplicatePO, Scene.parOf, hpj]
        have hj1 : alook j ((s.nextId, p) :: s.par) = some p := by
          rw [alook_cons_ne j s.nextId p s.par (by omega), hpj]
        have h2 : s2.par = (s.nextId + 1, p) :: (s.nextId, p) :: s.par := by
          simp [hs2def, Scene.setRadius, duplicatePO, Scene.parOf, h1, hj1, hs1next]
        rw [h2, alook_cons_ne _ _ _ _ (by omega), alook_cons_self]
    have hnew1 : alook (s.nextId + 1) s2.par = alook j s.par := by
      cases hpj : alook j s.par with
      | none =>
        have h1 : s1.par = s.par := by
          simp [hs1def, Scene.setRadius, duplicatePO, Scene.parOf, hpj]
        have h2 : s2.par = s1.par := by
          simp [hs2def, Scene.setRadius, duplicatePO, Scene.parOf, h1, hpj]
        rw [h2, h1]
        exact alook_none_of_ge s.par s.nextId (s.nextId + 1) hpar (by omega)
      | some p =>
        have h1 : s1.par = (s.nextId, p) :: s.par := by
          simp [hs1def, Scene.setRadius, duplicatePO, Scene.parOf, hpj]
        have hj1 : alook j ((s.nextId, p) :: s.par) = some p := by
          rw [alook_cons_ne j s.nextId p s.par (by omega), hpj]
        have h2 : s2.par = (s.nextId + 1, p) :: (s.nextId, p) :: s.par := by
          simp [hs2def, Scene.setRadius, duplicatePO, Scene.parOf, h1, hj1, hs1next]
        rw [h2, alook_cons_self]
    have hkeys2 : ∀ e ∈ s2.par, e.1 < s2.nextId := by
      intro e he
      cases hpj : alook j s.par with
      | none =>
        have h1 : s1.par = s.par := by
          simp [hs1def, Scene.setRadius, duplicatePO, Scene.parOf, hpj]
        have h2 : s2.par = s1.par := by
          simp [hs2def, Scene.setRadius, duplicatePO, Scene.parOf, h1, hpj]
        rw [h2, h1] at he
        have := hpar e he
        omega
      | some p =>
        have h1 : s1.par = (s.nextId, p) :: s.par := by
          simp [hs1def, Scene.setRadius, duplicatePO, Scene.parOf, hpj]
        have hj1 : alook j ((s.nextId, p) :: s.par) = some p := by
          rw [alook_cons_ne j s.nextId p s.par (by omega), hpj]
        have h2 : s2.par = (s.nextId + 1, p) :: (s.nextId, p) :: s.par := by
          simp [hs2def, Scene.setRadius, duplicatePO, Scene.parOf, h1, hj1, hs1next]
        rw [h2] at he
        rcases List.mem_cons.mp he with rfl | he2
        · simp [hs2next]
        · rcases List.mem_cons.mp he2 with rfl | he3
          · simp [hs2next]
          · have := hpar e he3
            omega
    obtain ⟨ih1, ih2, ih3, ih4, ih5, ih6, ih7, ih8⟩ := ih s2
      (fun x hx => by have := hl x (List.mem_cons_of_mem j hx); omega) hkeys2
    have hconns2 : s2.conns = s.conns := rfl
    have hblender2 : s2.blender = s.blender := rfl
    refine ⟨?_, ?_, ?_, ?_, ?_, ?_, ?_, ?_⟩
    · rw [hred]
      show s.nextId :: (createLoop1 rest s2).1 = _
      rw [ih1, List.length_cons, range_map_succ]
      refine List.cons_eq_cons.mpr ⟨by show s.nextId = s.nextId + 2 * 0; omega, ?_⟩
      apply List.map_congr_left
      intro t _
      show s2.nextId + 2 * t = s.nextId + 2 * (t + 1)
      rw [hs2next]
      omega
    · rw [hred]
      show s1.nextId :: (createLoop1 rest s2).2.1 = _
      rw [ih2, List.length_cons, range_map_succ, hs1next]
      refine List.cons_eq_cons.mpr
        ⟨by show s.nextId + 1 = s.nextId + 2 * 0 + 1; omega, ?_⟩
      apply List.map_congr_left
      intro t _
      show s2.nextId + 2 * t + 1 = s.nextId + 2 * (t + 1) + 1
      rw [hs2next]
      omega
    · rw [hred]
      show (createLoop1 rest s2).2.2.nextId = _
      rw [ih3, hs2next, List.length_cons]
      omega
    · rw [hred]
      show (createLoop1 rest s2).2.2.conns = s.conns
      rw [ih4, hconns2]
    · rw [hred]
      show (createLoop1 rest s2).2.2.blender = s.blender
      rw [ih5, hblender2]
    · rw [hred]
      intro e he
      have := ih6 e he
      rw [hs2next] at this
      simp only [List.length_cons]
      omega
    · rw [hred]
      intro n hn
      show alook n (createLoop1 rest s2).2.2.par = alook n s.par
      rw [ih7 n (by omega), hstable n hn]
    · rw [hred]
      intro t ht
      cases t with
      | zero =>
        constructor
        · show alook (s.nextId + 2 * 0) (createLoop1 rest s2).2.2.par = _
          rw [show s.nextId + 2 * 0 = s.nextId from by omega,
            ih7 s.nextId (by omega), hnew0]
          rfl
        · show alook (s.nextId + 2 * 0 + 1) (createLoop1 rest s2).2.2.par = _
          rw [show s.nextId + 2 * 0 + 1 = s.nextId + 1 from by omega,
            ih7 (s.nextId + 1) (by omega), hnew1]
          rfl
      | succ t0 =>
        have ht0 : t0 < rest.length := by
          simp only [List.length_cons] at ht
          omega
        obtain ⟨hA, hB⟩ := ih8 t0 ht0
        constructor
        · show alook (s.nextId + 2 * (t0 + 1)) (createLoop1 rest s2).2.2.par = _
          rw [show s.nextId + 2 * (t0 + 1) = s2.nextId + 2 * t0 from by
            rw [hs2next]; omega, hA, List.get_cons_succ]
          exact hstable _ (hl _ (List.mem_cons_of_mem j (List.get_mem rest t0 ht0)))
        · show alook (s.nextId + 2 * (t0 + 1) + 1) (createLoop1 rest s2).2.2.par = _
          rw [show s.nextId + 2 * (t0 + 1) + 1 = s2.nextId + 2 * t0 + 1 from by
            rw [hs2next]; omega, hB, List.get_cons_succ]
          exact hstable _ (hl _ (List.mem_cons_of_mem j (List.get_mem rest t0 ht0)))

theorem createLoop2_spec (fuel : Nat) (ikl fkl : List Nat) :
    ∀ (i : Nat) (s : Scene),
      (∀ t u, 1 ≤ t → t ≤ i → 1 ≤ u → u ≤ i →
        (t ≠ u → ikl.getD t 0 ≠ ikl.getD u 0 ∧ fkl.getD t 0 ≠ fkl.getD u 0)
        ∧ ikl.getD t 0 ≠ fkl.getD u 0) →
      (createLoop2 fuel ikl fkl i s).conns = s.conns
      ∧ (createLoop2 fuel ikl fkl i s).blender = s.blender
      ∧ (createLoop2 fuel ikl fkl i s).nextId = s.nextId
      ∧ (∀ n, (∀ t, 1 ≤ t → t ≤ i → n ≠ ikl.getD t 0 ∧ n ≠ fkl.getD t 0) →
          alook n (createLoop2 fuel ikl fkl i s).par = alook n s.par)
      ∧ (∀ t, 1 ≤ t → t ≤ i →
          alook (ikl.getD t 0) (createLoop2 fuel ikl fkl i s).par =
            some (ikl.getD (t - 1) 0)
          ∧ alook (fkl.getD t 0) (createLoop2 fuel ikl fkl i s).par =
            some (fkl.getD (t - 1) 0)) := by
  intro i
  induction i with
  | zero =>
    intro s _
    exact ⟨rfl, rfl, rfl, fun n _ => rfl, fun t h1 h2 => by omega⟩
  | succ i ih =>
    intro s hdisj
    set sB := reparent fuel (reparent fuel s (ikl.getD (i + 1) 0)
      (ikl.getD i 0)) (fkl.getD (i + 1) 0) (fkl.getD i 0) with hsB
    have hred : createLoop2 fuel ikl fkl (i + 1) s =
        createLoop2 fuel ikl fkl i sB := rfl
    have hconnsB : sB.conns = s.conns := rfl
    have hblendB : sB.blender = s.blender := rfl
    have hnextB : sB.nextId = s.nextId := rfl
    have hparB : sB.par = (fkl.getD (i + 1) 0, fkl.getD i 0) ::
        (ikl.getD (i + 1) 0, ikl.getD i 0) :: s.par := rfl
    obtain ⟨ih1, ih2, ih3, ih4, ih5⟩ := ih sB (fun t u h1 h2 h3 h4 =>
      hdisj t u h1 (by omega) h3 (by omega))
    refine ⟨?_, ?_, ?_, ?_, ?_⟩
    · rw [hred, ih1, hconnsB]
    · rw [hred, ih2, hblendB]
    · rw [hred, ih3, hnextB]
    · intro n hn
      rw [hred, ih4 n (fun t h1 h2 => hn t h1 (by omega)), hparB,
        alook_cons_ne _ _ _ _ (Ne.symm (hn (i + 1) (by omega) (by omega)).2),
        alook_cons_ne _ _ _ _ (Ne.symm (hn (i + 1) (by omega) (by omega)).1)]
    · intro t h1 h2
      rcases Nat.lt_or_ge t (i + 1) with hti | hti
      · exact ih5 t h1 (by omega)
      · have ht : t = i + 1 := by omega
        subst ht
        have hikstab : ∀ u, 1 ≤ u → u ≤ i →
            ikl.getD (i + 1) 0 ≠ ikl.getD u 0 ∧
              ikl.getD (i + 1) 0 ≠ fkl.getD u 0 := by
          intro u hu1 hu2
          refine ⟨((hdisj (i + 1) u (by omega) (by omega) hu1 (by omega)).1
            (by omega)).1, (hdisj (i + 1) u (by omega) (by omega) hu1
              (by omega)).2⟩
        have hfkstab : ∀ u, 1 ≤ u → u ≤ i →
            fkl.getD (i + 1) 0 ≠ ikl.getD u 0 ∧
              fkl.getD (i + 1) 0 ≠ fkl.getD u 0 := by
          intro u hu1 hu2
          refine ⟨Ne.symm (hdisj u (i + 1) hu1 (by omega) (by omega)
            (by omega)).2, ((hdisj (i + 1) u (by omega) (by omega) hu1
              (by omega)).1 (by omega)).2⟩
        have hfkik : ikl.getD (i + 1) 0 ≠ fkl.getD (i + 1) 0 :=
          (hdisj (i + 1) (i + 1) (by omega) (by omega) (by omega)
            (by omega)).2
        constructor
        · rw [hred, ih4 (ikl.getD (i + 1) 0) hikstab, hparB,
            alook_cons_ne _ _ _ _ (Ne.symm hfkik), alook_cons_self,
            Nat.add_sub_cancel]
        · rw [hred, ih4 (fkl.getD (i + 1) 0) hfkstab, hparB,
            alook_cons_self, Nat.add_sub_cancel]

theorem createLoop3_conns_mono :
    ∀ (triples : List (Nat × Nat × Nat)) (s : Scene) (c),
      c ∈ s.conns → c ∈ (createLoop3 triples s).2.conns := by
  intro triples
  induction triples with
  | nil => intro s c hc; exact hc
  | cons x rest ih =>
    obtain ⟨jb, ji, jf⟩ := x
    intro s c hc
    exact ih _ c (List.mem_cons_of_mem _ (List.mem_cons_of_mem _
      (List.mem_cons_of_mem _ hc)))

theorem createLoop3_spec :
    ∀ (triples : List (Nat × Nat × Nat)) (s : Scene),
      (createLoop3 triples s).1 =
        (List.range triples.length).map (fun t => s.nextId + t)
      ∧ (createLoop3 triples s).2.nextId = s.nextId + triples.length
      ∧ (createLoop3 triples s).2.par = s.par
      ∧ (∀ n, n < s.nextId →
          alook n (createLoop3 triples s).2.blender = alook n s.blender)
      ∧ (∀ t, t < triples.length →
          (((triples.getD t (0, 0, 0)).2.2, AttrName.rotate),
            (s.nextId + t, AttrName.color1)) ∈ (createLoop3 triples s).2.conns
          ∧ (((triples.getD t (0, 0, 0)).2.1, AttrName.rotate),
            (s.nextId + t, AttrName.color2)) ∈ (createLoop3 triples s).2.conns
          ∧ ((s.nextId + t, AttrName.output),
            ((triples.getD t (0, 0, 0)).1, AttrName.rotate)) ∈
              (createLoop3 triples s).2.conns
          ∧ alook (s.nextId + t) (createLoop3 triples s).2.blender = some 0) := by
  intro triples
  induction triples with
  | nil =>
    intro s
    refine ⟨rfl, by simp [createLoop3], rfl, fun n _ => rfl, ?_⟩
    intro t ht
    exact absurd ht (by simp)
  | cons x rest ih =>
    obtain ⟨jb, ji, jf⟩ := x
    intro s
    set s4 : Scene := Scene.setBlender (connectAttr (connectAttr (connectAttr
      (createNode s NKind.blendColors).2 (jf, AttrName.rotate)
        ((createNode s NKind.blendColors).1, AttrName.color1))
      (ji, AttrName.rotate) ((createNode s NKind.blendColors).1, AttrName.color2))
      ((createNode s NKind.blendColors).1, AttrName.output)
      (jb, AttrName.rotate)) (createNode s NKind.blendColors).1 0 with hs4
    have hred : createLoop3 ((jb, ji, jf) :: rest) s =
        ((createNode s NKind.blendColors).1 :: (createLoop3 rest s4).1,
         (createLoop3 rest s4).2) := rfl
    have hs4next : s4.nextId = s.nextId + 1 := rfl
    have hs4par : s4.par = s.par := rfl
    have hs4blender : s4.blender = (s.nextId, 0) :: s.blender := rfl
    obtain ⟨ih1, ih2, ih3, ih4, ih5⟩ := ih s4
    refine ⟨?_, ?_, ?_, ?_, ?_⟩
    · rw [hred]
      show s.nextId :: (createLoop3 rest s4).1 = _
      rw [ih1, List.length_cons, range_map_succ]
      refine List.cons_eq_cons.mpr ⟨by show s.nextId = s.nextId + 0; omega, ?_⟩
      apply List.map_congr_left
      intro t _
      show s4.nextId + t = s.nextId + (t + 1)
      rw [hs4next]
      omega
    · rw [hred]
      show (createLoop3 rest s4).2.nextId = _
      rw [ih2, hs4next, List.length_cons]
      omega
    · rw [hred]
      show (createLoop3 rest s4).2.par = _
      rw [ih3, hs4par]
    · intro n hn
      rw [hred]
      show alook n (createLoop3 rest s4).2.blender = _
      rw [ih4 n (by omega), hs4blender, alook_cons_ne _ _ _ _ (by omega)]
    · intro t ht
      cases t with
      | zero =>
        rw [hred]
        refine ⟨?_, ?_, ?_, ?_⟩
        · show ((jf, AttrName.rotate), (s.nextId + 0, AttrName.color1)) ∈
            (createLoop3 rest s4).2.conns
          apply createLoop3_conns_mono
          rw [show s.nextId + 0 = s.nextId from by omega]
          show _ ∈ ((s.nextId, AttrName.output), (jb, AttrName.rotate)) ::
            ((ji, AttrName.rotate), (s.nextId, AttrName.color2)) ::
            ((jf, AttrName.rotate), (s.nextId, AttrName.color1)) :: s.conns
          exact List.mem_cons_of_mem _ (List.mem_cons_of_mem _
            (List.mem_cons_self _ _))
        · show ((ji, AttrName.rotate), (s.nextId + 0, AttrName.color2)) ∈
            (createLoop3 rest s4).2.conns
          apply createLoop3_conns_mono
          rw [show s.nextId + 0 = s.nextId from by omega]
          show _ ∈ ((s.nextId, AttrName.output), (jb, AttrName.rotate)) ::
            ((ji, AttrName.rotate), (s.nextId, AttrName.color2)) ::
            ((jf, AttrName.rotate), (s.nextId, AttrName.color1)) :: s.conns
          exact List.mem_cons_of_mem _ (List.mem_cons_self _ _)
        · show ((s.nextId + 0, AttrName.output), (jb, AttrName.rotate)) ∈
            (createLoop3 rest s4).2.conns
          apply createLoop3_conns_mono
          rw [show s.nextId + 0 = s.nextId from by omega]
          exact List.mem_cons_self _ _
        · show alook (s.nextId + 0) (createLoop3 rest s4).2.blender = some 0
          rw [show s.nextId + 0 = s.nextId from by omega,
            ih4 s.nextId (by omega), hs4blender, alook_cons_self]
      | succ t0 =>
        have ht0 : t0 < rest.length := by
          simp only [List.length_cons] at ht
          omega
        obtain ⟨hA, hB, hC, hD⟩ := ih5 t0 ht0
        rw [hred]
        have harith : s.nextId + (t0 + 1) = s4.nextId + t0 := by
          rw [hs4next]; omega
        have hget : ((jb, ji, jf) :: rest).getD (t0 + 1) (0, 0, 0) =
            rest.getD t0 (0, 0, 0) := rfl
        refine ⟨?_, ?_, ?_, ?_⟩
        · rw [hget, harith]
          exact hA
        · rw [hget, harith]
          exact hB
        · rw [hget, harith]
          exact hC
        · rw [harith]
          exact hD

theorem zip3_getD :
    ∀ (a b c : List Nat) (t : Nat), t < a.length →
      b.length = a.length → c.length = a.length →
      (zip3 a b c).getD t (0, 0, 0) =
        (a.getD t 0, b.getD t 0, c.getD t 0) := by
  intro a
  induction a with
  | nil => intro b c t ht _ _; simp at ht
  | cons x as2 ih =>
    intro b c t ht hb hc
    cases b with
    | nil => simp at hb
    | cons y bs =>
      cases c with
      | nil => simp at hc
      | cons z cs =>
        cases t with
        | zero => rfl
        | succ t0 =>
          have := ih bs cs t0 (by simp at ht; omega) (by simp at hb; omega)
            (by simp at hc; omega)
          exact this

theorem zip3_length :
    ∀ (a b c : List Nat), b.length = a.length → c.length = a.length →
      (zip3 a b c).length = a.length := by
  intro a
  induction a with
  | nil =>
    intro b c _ _
    cases b <;> cases c <;> rfl
  | cons x as2 ih =>
    intro b c hb hc
    cases b with
    | nil => simp at hb
    | cons y bs =>
      cases c with
      | nil => simp at hc
      | cons z cs =>
        show (zip3 as2 bs cs).length + 1 = as2.length + 1
        rw [ih bs cs (by simp at hb; omega) (by simp at hc; omega)]

theorem getD_map_range (f : Nat → Nat) (n t : Nat) :
    ((List.range n).map f).getD t 0 = if t < n then f t else 0 := by
  rcases Nat.lt_or_ge t n with h | h
  · rw [if_pos h, List.getD_eq_getElem?_getD, List.getElem?_map,
      List.getElem?_range h]
    rfl
  · rw [if_neg (by omega), List.getD_eq_getElem?_getD, List.getElem?_map,
      List.getElem?_eq_none (by simpa using h)]
    rfl

/-- C2.  For a bind chain accepted by `checkContinuousHierarchy` (each
joint's parent is the previous joint), `ikfklimb.create` duplicates the
chain twice: the returned IK and FK lists have the bind chain's length, the
parent of each later IK (resp. FK) joint is its predecessor and the first
duplicates keep the bind root's parent, and per bind joint exactly one
distinct blendColors node is created, wired FK rotate → color1, IK rotate →
color2, output → bind rotate, with its blender attribute set to 0. -/
theorem ikfkCreate_spec (fuel : Nat) (s : Scene) (lJoints : List Nat)
    (hfuel1 : 1 ≤ fuel) (hfuel2 : lJoints.length ≤ fuel)
    (hwf : ∀ x ∈ lJoints, x < s.nextId)
    (hwfpar : ∀ e ∈ s.par, e.1 < s.nextId)
    (hchain : List.Chain' (fun a b => alook b s.par = some a) lJoints) :
    ∃ lIK lFK lBC s2,
      ikfkCreate fuel s lJoints = some (lIK, lFK, lBC, s2)
      ∧ lIK.length = lJoints.length
      ∧ lFK.length = lJoints.length
      ∧ lBC.length = lJoints.length
      ∧ lBC.Nodup
      ∧ (∀ t, t + 1 < lJoints.length →
          alook (lIK.getD (t + 1) 0) s2.par = some (lIK.getD t 0)
          ∧ alook (lFK.getD (t + 1) 0) s2.par = some (lFK.getD t 0))
      ∧ (0 < lJoints.length →
          alook (lIK.getD 0 0) s2.par = alook (lJoints.getD 0 0) s.par
          ∧ alook (lFK.getD 0 0) s2.par = alook (lJoints.getD 0 0) s.par)
      ∧ (∀ t, t < lJoints.length →
          ((lFK.getD t 0, AttrName.rotate), (lBC.getD t 0, AttrName.color1))
            ∈ s2.conns
          ∧ ((lIK.getD t 0, AttrName.rotate), (lBC.getD t 0, AttrName.color2))
            ∈ s2.conns
          ∧ ((lBC.getD t 0, AttrName.output),
              (lJoints.getD t 0, AttrName.rotate)) ∈ s2.conns
          ∧ alook (lBC.getD t 0) s2.blender = some 0) := by
  obtain ⟨k, rfl⟩ : ∃ k, fuel = k + 1 := ⟨fuel - 1, by omega⟩
  have hclosed : ∀ j (hj : j < lJoints.length), 1 ≤ j →
      ∃ p, Scene.parFn s (lJoints.get ⟨j, hj⟩) = some p ∧ p ∈ lJoints := by
    intro j hj h1
    obtain ⟨j0, rfl⟩ : ∃ j0, j = j0 + 1 := ⟨j - 1, by omega⟩
    have hR := List.chain'_iff_get.mp hchain j0 (by omega)
    exact ⟨lJoints.get ⟨j0, by omega⟩, hR, List.get_mem _ _ _⟩
  have hch : checkContinuousHierarchy (Scene.parFn s) (k + 1) lJoints 1 =
      some lJoints :=
    checkCH_closed (Scene.parFn s) lJoints hclosed k 1 (le_refl 1) (by omega)
  obtain ⟨L11, L12, L13, L14, L15, L16, L17, L18⟩ :=
    createLoop1_spec lJoints s hwf hwfpar
  set b := s.nextId with hb
  set n := lJoints.length with hn
  set ikl := (createLoop1 lJoints s).1 with hikl
  set fkl := (createLoop1 lJoints s).2.1 with hfkl
  set s15 := (createLoop1 lJoints s).2.2 with hs15
  have hikD : ∀ t, ikl.getD t 0 = if t < n then b + 2 * t else 0 := by
    intro t
    rw [L11, getD_map_range]
  have hfkD : ∀ t, fkl.getD t 0 = if t < n then b + 2 * t + 1 else 0 := by
    intro t
    rw [L12, getD_map_range]
  have hikLen : ikl.length = n := by rw [L11]; simp
  have hfkLen : fkl.length = n := by rw [L12]; simp
  have hdisj : ∀ t u, 1 ≤ t → t ≤ n - 1 → 1 ≤ u → u ≤ n - 1 →
      (t ≠ u → ikl.getD t 0 ≠ ikl.getD u 0 ∧ fkl.getD t 0 ≠ fkl.getD u 0)
      ∧ ikl.getD t 0 ≠ fkl.getD u 0 := by
    intro t u h1 h2 h3 h4
    have htn : t < n := by omega
    have hun : u < n := by omega
    have e1 : ikl.getD t 0 = b + 2 * t := by rw [hikD, if_pos htn]
    have e2 : ikl.getD u 0 = b + 2 * u := by rw [hikD, if_pos hun]
    have e3 : fkl.getD t 0 = b + 2 * t + 1 := by rw [hfkD, if_pos htn]
    have e4 : fkl.getD u 0 = b + 2 * u + 1 := by rw [hfkD, if_pos hun]
    refine ⟨fun hne => ⟨?_, ?_⟩, ?_⟩
    · rw [e1, e2]; omega
    · rw [e3, e4]; omega
    · rw [e1, e4]; omega
  obtain ⟨L21, L22, L23, L24, L25⟩ :=
    createLoop2_spec (k + 1) ikl fkl (n - 1) s15 hdisj
  set s16 := createLoop2 (k + 1) ikl fkl (n - 1) s15 with hs16
  obtain ⟨L31, L32, L33, L34, L35⟩ := createLoop3_spec (zip3 lJoints ikl fkl) s16
  set bc := (createLoop3 (zip3 lJoints ikl fkl) s16).1 with hbc
  set sF := (createLoop3 (zip3 lJoints ikl fkl) s16).2 with hsF
  have hzlen : (zip3 lJoints ikl fkl).length = n :=
    zip3_length lJoints ikl fkl (by rw [hikLen, hn]) (by rw [hfkLen, hn])
  have hres : ikfkCreate (k + 1) s lJoints = some (ikl, fkl, bc, sF) := by
    rw [ikfkCreate, hch]
  refine ⟨ikl, fkl, bc, sF, hres, ?_, ?_, ?_, ?_, ?_, ?_, ?_⟩
  · rw [hikLen, hn]
  · rw [hfkLen, hn]
  · rw [L31, List.length_map, List.length_range, hzlen, hn]
  · rw [L31]
    exact (List.nodup_range _).map (fun a c h => by omega)
  · intro t ht
    have htn : t + 1 < n := by omega
    have h41 := L25 (t + 1) (by omega) (by omega)
    constructor
    · rw [show sF.par = s16.par from L33]
      have h42 := h41.1
      rw [Nat.add_sub_cancel] at h42
      exact h42
    · rw [show sF.par = s16.par from L33]
      have h42 := h41.2
      rw [Nat.add_sub_cancel] at h42
      exact h42
  · intro hlen0
    have hn0 : 0 < n := by omega
    have hik0 : ikl.getD 0 0 = b := by rw [hikD, if_pos hn0]; omega
    have hfk0 : fkl.getD 0 0 = b + 1 := by rw [hfkD, if_pos hn0]
    have hget0 : lJoints.get ⟨0, by omega⟩ = lJoints.getD 0 0 := by
      rw [List.getD_eq_getElem lJoints 0 (show 0 < lJoints.length by omega)]
      rfl
    have hstabA : alook b s16.par = alook b s15.par := by
      refine L24 b (fun u hu1 hu2 => ⟨?_, ?_⟩)
      · rw [hikD, if_pos (by omega : u < n)]; omega
      · rw [hfkD, if_pos (by omega : u < n)]; omega
    have hstabB : alook (b + 1) s16.par = alook (b + 1) s15.par := by
      refine L24 (b + 1) (fun u hu1 hu2 => ⟨?_, ?_⟩)
      · rw [hikD, if_pos (by omega : u < n)]; omega
      · rw [hfkD, if_pos (by omega : u < n)]; omega
    have h0 := L18 0 (by omega)
    constructor
    · rw [show sF.par = s16.par from L33, hik0, hstabA]
      have h01 := h0.1
      rw [show b + 2 * 0 = b from by omega, hget0] at h01
      exact h01
    · rw [show sF.par = s16.par from L33, hfk0, hstabB]
      have h02 := h0.2
      rw [show b + 2 * 0 + 1 = b + 1 from by omega, hget0] at h02
      exact h02
  · intro t ht'
    have htn : t < n := by omega
    have hztrip : (zip3 lJoints ikl fkl).getD t (0, 0, 0) =
        (lJoints.getD t 0, ikl.getD t 0, fkl.getD t 0) :=
      zip3_getD lJoints ikl fkl t (by omega) (by rw [hikLen, hn])
        (by rw [hfkLen, hn])
    obtain ⟨W1, W2, W3, W4⟩ := L35 t (by rw [hzlen]; omega)
    rw [hztrip] at W1 W2 W3
    have hbcD : bc.getD t 0 = s16.nextId + t := by
      rw [L31, getD_map_range, if_pos (by rw [hzlen]; omega)]
    refine ⟨?_, ?_, ?_, ?_⟩
    · rw [hbcD]
      exact W1
    · rw [hbcD]
      exact W2
    · rw [hbcD]
      exact W3
    · rw [hbcD]
      exact W4

/-- Witness for C2 on a two-joint chain in a fresh scene. -/
theorem ikfkCreate_spec_witness :
    ∃ lIK lFK lBC s2,
      ikfkCreate 3
        { nodes := [0, 1], par := [(1, 0)],
          kind := [(0, NKind.joint), (1, NKind.joint)], loc := [],
          pivotL := [], pts := [], radius := [], conns := [], blender := [],
          constraints := [], created := [], attrIKFK := [], sdk := [],
          nextId := 2 } [0, 1] = some (lIK, lFK, lBC, s2)
      ∧ lIK.length = 2 ∧ lFK.length = 2 ∧ lBC.length = 2 ∧ lBC.Nodup
      ∧ (∀ t, t + 1 < 2 →
          alook (lIK.getD (t + 1) 0) s2.par = some (lIK.getD t 0)
          ∧ alook (lFK.getD (t + 1) 0) s2.par = some (lFK.getD t 0))
      ∧ (0 < 2 →
          alook (lIK.getD 0 0) s2.par = alook 0 [(1, 0)]
          ∧ alook (lFK.getD 0 0) s2.par = alook 0 [(1, 0)])
      ∧ (∀ t, t < 2 →
          ((lFK.getD t 0, AttrName.rotate), (lBC.getD t 0, AttrName.color1))
            ∈ s2.conns
          ∧ ((lIK.getD t 0, AttrName.rotate), (lBC.getD t 0, AttrName.color2))
            ∈ s2.conns
          ∧ ((lBC.getD t 0, AttrName.output),
              ([0, 1].getD t 0, AttrName.rotate)) ∈ s2.conns
          ∧ alook (lBC.getD t 0) s2.blender = some 0) :=
  ikfkCreate_spec 3
    { nodes := [0, 1], par := [(1, 0)],
      kind := [(0, NKind.joint), (1, NKind.joint)], loc := [],
      pivotL := [], pts := [], radius := [], conns := [], blender := [],
      constraints := [], created := [], attrIKFK := [], sdk := [],
      nextId := 2 } [0, 1] (by omega) (by simp) (by decide) (by decide)
    (List.chain'_cons.mpr ⟨rfl, List.chain'_singleton 1⟩)

/-! ### Matrix and affine algebra used by the offset-transform claim -/

@[simp] theorem Mat3.mulVec_x (a : Mat3) (v : Vec3 ℚ) :
    (Mat3.mulVec a v).x = a.m00 * v.x + a.m01 * v.y + a.m02 * v.z := rfl

@[simp] theorem Mat3.mulVec_y (a : Mat3) (v : Vec3 ℚ) :
    (Mat3.mulVec a v).y = a.m10 * v.x + a.m11 * v.y + a.m12 * v.z := rfl

@[simp] theorem Mat3.mulVec_z (a : Mat3) (v : Vec3 ℚ) :
    (Mat3.mulVec a v).z = a.m20 * v.x + a.m21 * v.y + a.m22 * v.z := rfl

@[simp] theorem Aff.comp_lin (f g : Aff) :
    (Aff.comp f g).lin = Mat3.mul f.lin g.lin := rfl

@[simp] theorem Aff.comp_tr (f g : Aff) :
    (Aff.comp f g).tr = Mat3.mulVec f.lin g.tr + f.tr := rfl

@[simp] theorem Aff.idA_lin : Aff.idA.lin = Mat3.id3 := rfl

@[simp] theorem Aff.idA_tr : Aff.idA.tr = 0 := rfl

@[simp] theorem Aff.inv_lin (f : Aff) : (Aff.inv f).lin = Mat3.inv f.lin := rfl

@[simp] theorem Aff.inv_tr (f : Aff) :
    (Aff.inv f).tr = -(Mat3.mulVec (Mat3.inv f.lin) f.tr) := rfl

theorem Mat3.mul_assoc3 (a b c : Mat3) :
    Mat3.mul (Mat3.mul a b) c = Mat3.mul a (Mat3.mul b c) := by
  simp only [Mat3.mul]
  rw [Mat3.mk.injEq]
  exact ⟨by ring, by ring, by ring, by ring, by ring, by ring, by ring,
    by ring, by ring⟩

theorem Mat3.id3_mul (a : Mat3) : Mat3.mul Mat3.id3 a = a := by
  obtain ⟨a0, a1, a2, a3, a4, a5, a6, a7, a8⟩ := a
  simp only [Mat3.mul, Mat3.id3]
  rw [Mat3.mk.injEq]
  exact ⟨by ring, by ring, by ring, by ring, by ring, by ring, by ring,
    by ring, by ring⟩

theorem Mat3.mul_id3 (a : Mat3) : Mat3.mul a Mat3.id3 = a := by
  obtain ⟨a0, a1, a2, a3, a4, a5, a6, a7, a8⟩ := a
  simp only [Mat3.mul, Mat3.id3]
  rw [Mat3.mk.injEq]
  exact ⟨by ring, by ring, by ring, by ring, by ring, by ring, by ring,
    by ring, by ring⟩

theorem Mat3.det_mul (a b : Mat3) :
    Mat3.det (Mat3.mul a b) = Mat3.det a * Mat3.det b := by
  simp only [Mat3.det, Mat3.mul]
  ring

theorem Mat3.adj_mul_self (a : Mat3) :
    Mat3.mul (Mat3.adj a) a = Mat3.smul (Mat3.det a) Mat3.id3 := by
  simp only [Mat3.mul, Mat3.adj, Mat3.smul, Mat3.id3, Mat3.det]
  rw [Mat3.mk.injEq]
  exact ⟨by ring, by ring, by ring, by ring, by ring, by ring, by ring,
    by ring, by ring⟩

theorem Mat3.self_mul_adj (a : Mat3) :
    Mat3.mul a (Mat3.adj a) = Mat3.smul (Mat3.det a) Mat3.id3 := by
  simp only [Mat3.mul, Mat3.adj, Mat3.smul, Mat3.id3, Mat3.det]
  rw [Mat3.mk.injEq]
  exact ⟨by ring, by ring, by ring, by ring, by ring, by ring, by ring,
    by ring, by ring⟩

theorem Mat3.smul_mul (r : ℚ) (a b : Mat3) :
    Mat3.mul (Mat3.smul r a) b = Mat3.smul r (Mat3.mul a b) := by
  simp only [Mat3.mul, Mat3.smul]
  rw [Mat3.mk.injEq]
  exact ⟨by ring, by ring, by ring, by ring, by ring, by ring, by ring,
    by ring, by ring⟩

theorem Mat3.mul_smul3 (r : ℚ) (a b : Mat3) :
    Mat3.mul a (Mat3.smul r b) = Mat3.smul r (Mat3.mul a b) := by
  simp only [Mat3.mul, Mat3.smul]
  rw [Mat3.mk.injEq]
  exact ⟨by ring, by ring, by ring, by ring, by ring, by ring, by ring,
    by ring, by ring⟩

theorem Mat3.smul_smul3 (r t : ℚ) (a : Mat3) :
    Mat3.smul r (Mat3.smul t a) = Mat3.smul (r * t) a := by
  simp only [Mat3.smul]
  rw [Mat3.mk.injEq]
  exact ⟨by ring, by ring, by ring, by ring, by ring, by ring, by ring,
    by ring, by ring⟩

theorem Mat3.one_smul3 (a : Mat3) : Mat3.smul 1 a = a := by
  obtain ⟨a0, a1, a2, a3, a4, a5, a6, a7, a8⟩ := a
  simp only [Mat3.smul]
  rw [Mat3.mk.injEq]
  exact ⟨by ring, by ring, by ring, by ring, by ring, by ring, by ring,
    by ring, by ring⟩

theorem Mat3.inv_mul_self (a : Mat3) (h : Mat3.det a ≠ 0) :
    Mat3.mul (Mat3.inv a) a = Mat3.id3 := by
  rw [Mat3.inv, Mat3.smul_mul, Mat3.adj_mul_self, Mat3.smul_smul3, one_div,
    inv_mul_cancel₀ h, Mat3.one_smul3]

theorem Mat3.mul_inv_self (a : Mat3) (h : Mat3.det a ≠ 0) :
    Mat3.mul a (Mat3.inv a) = Mat3.id3 := by
  rw [Mat3.inv, Mat3.mul_smul3, Mat3.self_mul_adj, Mat3.smul_smul3, one_div,
    inv_mul_cancel₀ h, Mat3.one_smul3]

theorem Mat3.mulVec_mulVec (a b : Mat3) (v : Vec3 ℚ) :
    Mat3.mulVec (Mat3.mul a b) v = Mat3.mulVec a (Mat3.mulVec b v) := by
  ext <;> simp only [Mat3.mulVec_x, Mat3.mulVec_y, Mat3.mulVec_z, Mat3.mul] <;>
    ring

theorem Mat3.id3_mulVec (v : Vec3 ℚ) : Mat3.mulVec Mat3.id3 v = v := by
  ext <;> simp only [Mat3.mulVec_x, Mat3.mulVec_y, Mat3.mulVec_z, Mat3.id3] <;>
    ring

theorem Mat3.mulVec_add (a : Mat3) (v w : Vec3 ℚ) :
    Mat3.mulVec a (v + w) = Mat3.mulVec a v + Mat3.mulVec a w := by
  ext <;> simp <;> ring

theorem Mat3.mulVec_neg (a : Mat3) (v : Vec3 ℚ) :
    Mat3.mulVec a (-v) = -(Mat3.mulVec a v) := by
  ext <;> simp <;> ring

theorem Mat3.mulVec_zero (a : Mat3) : Mat3.mulVec a 0 = 0 := by
  ext <;> simp

theorem Aff.comp_assoc (f g k : Aff) :
    Aff.comp (Aff.comp f g) k = Aff.comp f (Aff.comp g k) := by
  refine Aff.ext ?_ ?_
  · simp only [Aff.comp_lin]
    exact Mat3.mul_assoc3 f.lin g.lin k.lin
  · simp only [Aff.comp_lin, Aff.comp_tr, Mat3.mulVec_add, Mat3.mulVec_mulVec]
    ext <;> simp <;> ring

theorem Aff.idA_comp (f : Aff) : Aff.comp Aff.idA f = f := by
  refine Aff.ext ?_ ?_
  · simp only [Aff.comp_lin, Aff.idA_lin]
    exact Mat3.id3_mul f.lin
  · simp only [Aff.comp_tr, Aff.idA_lin, Aff.idA_tr, Mat3.id3_mulVec]
    ext <;> simp

theorem Aff.comp_idA (f : Aff) : Aff.comp f Aff.idA = f := by
  refine Aff.ext ?_ ?_
  · simp only [Aff.comp_lin, Aff.idA_lin]
    exact Mat3.mul_id3 f.lin
  · simp only [Aff.comp_tr, Aff.idA_tr, Mat3.mulVec_zero]
    ext <;> simp

theorem Aff.comp_inv_self (f : Aff) (h : Mat3.det f.lin ≠ 0) :
    Aff.comp f (Aff.inv f) = Aff.idA := by
  refine Aff.ext ?_ ?_
  · simp only [Aff.comp_lin, Aff.inv_lin, Aff.idA_lin]
    exact Mat3.mul_inv_self f.lin h
  · simp only [Aff.comp_tr, Aff.inv_tr, Aff.idA_tr, Mat3.mulVec_neg]
    rw [← Mat3.mulVec_mulVec, Mat3.mul_inv_self f.lin h, Mat3.id3_mulVec]
    ext <;> simp

theorem Aff.inv_comp_self (f : Aff) (h : Mat3.det f.lin ≠ 0) :
    Aff.comp (Aff.inv f) f = Aff.idA := by
  refine Aff.ext ?_ ?_
  · simp only [Aff.comp_lin, Aff.inv_lin, Aff.idA_lin]
    exact Mat3.inv_mul_self f.lin h
  · simp only [Aff.comp_tr, Aff.inv_tr, Aff.idA_tr]
    ext <;> simp <;> ring

theorem Aff.apply_comp (f g : Aff) (v : Vec3 ℚ) :
    Aff.apply (Aff.comp f g) v = Aff.apply f (Aff.apply g v) := by
  simp only [Aff.apply, Aff.comp_lin, Aff.comp_tr, Mat3.mulVec_mulVec,
    Mat3.mulVec_add]
  ext <;> simp <;> ring

theorem Aff.apply_idA (v : Vec3 ℚ) : Aff.apply Aff.idA v = v := by
  simp only [Aff.apply, Aff.idA_lin, Aff.idA_tr, Mat3.id3_mulVec]
  ext <;> simp

theorem Aff.inv_idA : Aff.inv Aff.idA = Aff.idA := by
  refine Aff.ext ?_ ?_
  · simp only [Aff.inv_lin, Aff.idA_lin]
    rw [Mat3.inv]
    have hd : Mat3.det Mat3.id3 = 1 := by norm_num [Mat3.det, Mat3.id3]
    have ha : Mat3.adj Mat3.id3 = Mat3.id3 := by
      simp only [Mat3.adj, Mat3.id3]
      rw [Mat3.mk.injEq]
      norm_num
    rw [hd, ha, show (1 : ℚ) / 1 = 1 from by norm_num, Mat3.one_smul3]
  · simp only [Aff.inv_tr, Aff.idA_tr, Mat3.mulVec_zero]
    ext <;> simp

theorem Aff.apply_zero (f : Aff) : Aff.apply f 0 = f.tr := by
  rw [Aff.apply, Mat3.mulVec_zero]
  ext <;> simp

theorem vec_sub_zero (v : Vec3 ℚ) : v - 0 = v := by
  ext <;> simp

theorem centroid_single (v : Vec3 ℚ) : centroid [v] = v := by
  show ((1 : ℚ) / (([v] : List (Vec3 ℚ)).length : ℚ)) •
    ([v].foldl (fun acc x => acc + x) 0) = v
  simp only [List.length_singleton, Nat.cast_one, List.foldl_cons,
    List.foldl_nil]
  ext <;> simp

/-! ### World-transform framing lemmas -/

theorem alook_mem {β : Type} (k : Nat) (l : List (Nat × β)) (v : β)
    (h : alook k l = some v) : (k, v) ∈ l := by
  induction l with
  | nil => exact absurd h (by simp [alook])
  | cons e rest ih =>
    obtain ⟨k2, v2⟩ := e
    by_cases hk : k2 = k
    · rw [alook, if_pos hk] at h
      rw [← hk, ← Option.some.inj h]
      exact List.mem_cons_self _ _
    · rw [alook, if_neg hk] at h
      exact List.mem_cons_of_mem _ (ih h)

theorem worldAff_zero (s : Scene) (n : Nat) : worldAff 0 s n = Aff.idA := rfl

theorem worldAff_succ (F : Nat) (s : Scene) (n : Nat) :
    worldAff (F + 1) s n =
      match Scene.parOf s n with
      | none => Scene.locOf s n
      | some p => Aff.comp (worldAff F s p) (Scene.locOf s n) := rfl

theorem worldAff_succ_none (F : Nat) (s : Scene) (n : Nat)
    (h : Scene.parOf s n = none) :
    worldAff (F + 1) s n = Scene.locOf s n := by
  rw [worldAff_succ, h]

theorem worldAff_succ_some (F : Nat) (s : Scene) (n p : Nat)
    (h : Scene.parOf s n = some p) :
    worldAff (F + 1) s n = Aff.comp (worldAff F s p) (Scene.locOf s n) := by
  rw [worldAff_succ, h]

theorem chainList_zero (s : Scene) (n : Nat) : chainList s 0 n = [n] := rfl

theorem chainList_succ (F : Nat) (s : Scene) (n : Nat) :
    chainList s (F + 1) n =
      match Scene.parOf s n with
      | none => [n]
      | some p => n :: chainList s F p := rfl

theorem rootedIn_zero (s : Scene) (n : Nat) : rootedIn s 0 n = false := rfl

theorem rootedIn_succ (F : Nat) (s : Scene) (n : Nat) :
    rootedIn s (F + 1) n =
      match Scene.parOf s n with
      | none => true
      | some p => rootedIn s F p := rfl

theorem invChain_succ (F : Nat) (s : Scene) (n : Nat) :
    invChain s (F + 1) n =
      if Mat3.det (Scene.locOf s n).lin = 0 then false
      else
        match Scene.parOf s n with
        | none => true
        | some p => invChain s F p := rfl

theorem mem_chainList_self (s : Scene) (F n : Nat) : n ∈ chainList s F n := by
  cases F with
  | zero => rw [chainList_zero]; exact List.mem_singleton.mpr rfl
  | succ F =>
    rw [chainList_succ]
    cases Scene.parOf s n with
    | none => exact List.mem_singleton.mpr rfl
    | some p => exact List.mem_cons_self _ _

theorem worldAff_congr (s t : Scene) :
    ∀ F n, (∀ m ∈ chainList s F n,
        Scene.parOf t m = Scene.parOf s m ∧ Scene.locOf t m = Scene.locOf s m) →
      worldAff F t n = worldAff F s n := by
  intro F
  induction F with
  | zero => intro n _; rfl
  | succ F ih =>
    intro n h
    obtain ⟨hpn, hln⟩ := h n (mem_chainList_self s (F + 1) n)
    rw [worldAff_succ, worldAff_succ, hpn, hln]
    cases hps : Scene.parOf s n with
    | none => rfl
    | some p =>
      have hsub : ∀ m ∈ chainList s F p,
          Scene.parOf t m = Scene.parOf s m ∧
            Scene.locOf t m = Scene.locOf s m := by
        intro m hm
        refine h m ?_
        rw [chainList_succ, hps]
        exact List.mem_cons_of_mem _ hm
      show Aff.comp (worldAff F t p) (Scene.locOf s n) =
        Aff.comp (worldAff F s p) (Scene.locOf s n)
      rw [ih p hsub]

theorem worldAff_stable (s : Scene) :
    ∀ F n, rootedIn s F n = true → ∀ G, F ≤ G →
      worldAff G s n = worldAff F s n := by
  intro F
  induction F with
  | zero =>
    intro n h
    rw [rootedIn_zero] at h
    exact absurd h (by simp)
  | succ F ih =>
    intro n h G hFG
    obtain ⟨G2, rfl⟩ : ∃ G2, G = G2 + 1 := ⟨G - 1, by omega⟩
    rw [rootedIn_succ] at h
    rw [worldAff_succ, worldAff_succ]
    cases hps : Scene.parOf s n with
    | none => rfl
    | some p =>
      rw [hps] at h
      have h2 : rootedIn s F p = true := h
      show Aff.comp (worldAff G2 s p) (Scene.locOf s n) =
        Aff.comp (worldAff F s p) (Scene.locOf s n)
      rw [ih p h2 G2 (by omega)]

theorem chain_mem_lt (s : Scene) (B : Nat)
    (hv : ∀ e ∈ s.par, e.2 < B) :
    ∀ F n, n < B → ∀ m ∈ chainList s F n, m < B := by
  intro F
  induction F with
  | zero =>
    intro n hn m hm
    rw [chainList_zero] at hm
    rw [List.mem_singleton.mp hm]
    exact hn
  | succ F ih =>
    intro n hn m hm
    rw [chainList_succ] at hm
    cases hps : Scene.parOf s n with
    | none =>
      rw [hps] at hm
      rw [List.mem_singleton.mp hm]
      exact hn
    | some p =>
      rw [hps] at hm
      rcases List.mem_cons.mp hm with h1 | h2
      · rw [h1]; exact hn
      · exact ih p (hv (n, p) (alook_mem n s.par p hps)) m h2

theorem det_worldAff_ne (s : Scene) :
    ∀ F n, invChain s F n = true → Mat3.det (worldAff F s n).lin ≠ 0 := by
  intro F
  induction F with
  | zero =>
    intro n h
    rw [show invChain s 0 n = false from rfl] at h
    exact absurd h (by simp)
  | succ F ih =>
    intro n h
    rw [invChain_succ] at h
    by_cases hd : Mat3.det (Scene.locOf s n).lin = 0
    · rw [if_pos hd] at h
      exact absurd h (by simp)
    · rw [if_neg hd] at h
      cases hps : Scene.parOf s n with
      | none => rw [worldAff_succ_none F s n hps]; exact hd
      | some p =>
        rw [hps] at h
        rw [worldAff_succ_some F s n p hps]
        simp only [Aff.comp_lin, Mat3.det_mul]
        exact mul_ne_zero (ih p h) hd

/-! ### The child fold of `makeIdentity` -/

theorem miStep_frame (L : Aff) (s : Scene) (c : Nat) :
    (miStep L s c).par = s.par ∧ (miStep L s c).kind = s.kind ∧
      (miStep L s c).pivotL = s.pivotL ∧ (miStep L s c).nodes = s.nodes ∧
      (miStep L s c).nextId = s.nextId := by
  rw [miStep]
  by_cases hk : Scene.kindOf s c = some NKind.shape
  · rw [if_pos hk]
    exact ⟨rfl, rfl, rfl, rfl, rfl⟩
  · rw [if_neg hk]
    exact ⟨rfl, rfl, rfl, rfl, rfl⟩

theorem miFold_frame (L : Aff) :
    ∀ (l : List Nat) (s : Scene),
      (l.foldl (miStep L) s).par = s.par ∧
        (l.foldl (miStep L) s).kind = s.kind ∧
        (l.foldl (miStep L) s).pivotL = s.pivotL ∧
        (l.foldl (miStep L) s).nodes = s.nodes ∧
        (l.foldl (miStep L) s).nextId = s.nextId := by
  intro l
  induction l with
  | nil => intro s; exact ⟨rfl, rfl, rfl, rfl, rfl⟩
  | cons c rest ih =>
    intro s
    rw [List.foldl_cons]
    obtain ⟨i1, i2, i3, i4, i5⟩ := ih (miStep L s c)
    obtain ⟨f1, f2, f3, f4, f5⟩ := miStep_frame L s c
    exact ⟨i1.trans f1, i2.trans f2, i3.trans f3, i4.trans f4, i5.trans f5⟩

theorem miFold_loc (L : Aff) :
    ∀ (l : List Nat) (s : Scene) (m : Nat),
      (m ∈ l → Scene.kindOf s m = some NKind.shape) →
      alook m (l.foldl (miStep L) s).loc = alook m s.loc := by
  intro l
  induction l with
  | nil => intro s m _; rfl
  | cons c rest ih =>
    intro s m hm
    rw [List.foldl_cons]
    have hkind : Scene.kindOf (miStep L s c) m = Scene.kindOf s m := by
      rw [Scene.kindOf, Scene.kindOf, (miStep_frame L s c).2.1]
    have hrec := ih (miStep L s c) m
      (fun hmem => hkind.trans (hm (List.mem_cons_of_mem _ hmem)))
    rw [hrec]
    rw [miStep]
    by_cases hk : Scene.kindOf s c = some NKind.shape
    · rw [if_pos hk]
      rfl
    · rw [if_neg hk]
      have hmc : m ≠ c := by
        intro he
        exact hk (he ▸ hm (he ▸ List.mem_cons_self c rest))
      show alook m ((c, Aff.comp L (Scene.locOf s c)) :: s.loc) = alook m s.loc
      exact alook_cons_ne m c _ s.loc (fun hh => hmc hh.symm)

theorem miFold_pts_ne (L : Aff) :
    ∀ (l : List Nat) (s : Scene) (m : Nat), m ∉ l →
      alook m (l.foldl (miStep L) s).pts = alook m s.pts := by
  intro l
  induction l with
  | nil => intro s m _; rfl
  | cons c rest ih =>
    intro s m hm
    rw [List.foldl_cons]
    have hmc : m ≠ c := fun he => hm (he ▸ List.mem_cons_self c rest)
    have hmr : m ∉ rest := fun he => hm (List.mem_cons_of_mem _ he)
    rw [ih (miStep L s c) m hmr]
    rw [miStep]
    by_cases hk : Scene.kindOf s c = some NKind.shape
    · rw [if_pos hk]
      show alook m ((c, _) :: s.pts) = alook m s.pts
      exact alook_cons_ne m c _ s.pts (fun hh => hmc hh.symm)
    · rw [if_neg hk]
      rfl

theorem miFold_pts_mem (L : Aff) :
    ∀ (l : List Nat) (s : Scene) (c : Nat), l.Nodup → c ∈ l →
      Scene.kindOf s c = some NKind.shape →
      Scene.ptsOf (l.foldl (miStep L) s) c =
        (Scene.ptsOf s c).map (fun v => Aff.apply L v) := by
  intro l
  induction l with
  | nil => intro s c _ hc; exact absurd hc (List.not_mem_nil c)
  | cons hd rest ih =>
    intro s c hnd hc hkc
    have hnd1 : hd ∉ rest := (List.nodup_cons.mp hnd).1
    have hnd2 : rest.Nodup := (List.nodup_cons.mp hnd).2
    rw [List.foldl_cons]
    rcases List.mem_cons.mp hc with he | hmem
    · subst he
      have hstep : miStep L s c =
          Scene.setPts s c ((Scene.ptsOf s c).map (fun v => Aff.apply L v)) := by
        rw [miStep, if_pos hkc]
      rw [hstep]
      rw [Scene.ptsOf, miFold_pts_ne L rest _ c hnd1]
      show (alook c ((c, (Scene.ptsOf s c).map (fun v => Aff.apply L v))
        :: s.pts)).getD [] = _
      rw [alook_cons_self]
      rfl
    · have hchd : c ≠ hd := fun he => hnd1 (he ▸ hmem)
      have hkind : Scene.kindOf (miStep L s hd) c = Scene.kindOf s c := by
        rw [Scene.kindOf, Scene.kindOf, (miStep_frame L s hd).2.1]
      have hpts : Scene.ptsOf (miStep L s hd) c = Scene.ptsOf s c := by
        rw [Scene.ptsOf, Scene.ptsOf, miStep]
        by_cases hk : Scene.kindOf s hd = some NKind.shape
        · rw [if_pos hk]
          show (alook c ((hd, (Scene.ptsOf s hd).map (fun v => Aff.apply L v))
            :: s.pts)).getD [] = (alook c s.pts).getD []
          rw [alook_cons_ne c hd _ s.pts (fun hh => hchd hh.symm)]
        · rw [if_neg hk]
          rfl
      rw [ih (miStep L s hd) c hnd2 hmem (hkind.trans hkc), hpts]

theorem mem_childrenOf (s : Scene) (n c : Nat) :
    c ∈ childrenOf s n ↔ c ∈ s.nodes ∧ Scene.parOf s c = some n := by
  rw [childrenOf, List.mem_filter]
  constructor
  · intro ⟨h1, h2⟩
    exact ⟨h1, of_decide_eq_true h2⟩
  · intro ⟨h1, h2⟩
    exact ⟨h1, decide_eq_true h2⟩

theorem offsetTail_spec (F G : Nat) (s s2 : Scene) (xCtrl pr : Nat) (D : Aff)
    (hFG : F ≤ G)
    (hpr : Scene.parOf s xCtrl = some pr)
    (hwfpar : ∀ e ∈ s.par, e.1 < s.nextId ∧ e.2 < s.nextId)
    (hwfnodes : ∀ x ∈ s.nodes, x < s.nextId)
    (hnd : s.nodes.Nodup)
    (hroot : rootedIn s F pr = true)
    (hinv : invChain s F pr = true)
    (hnotin : xCtrl ∉ chainList s F pr)
    (hnotpar : ∀ m ∈ chainList s F pr, Scene.parOf s m ≠ some xCtrl)
    (hdetD : Mat3.det D.lin ≠ 0)
    (A1 : s2.par = s.par)
    (A2 : ∀ m, m ≠ s.nextId → alook m s2.loc = alook m s.loc)
    (A3 : Scene.locOf s2 s.nextId = D)
    (A4 : alook s.nextId s2.pivotL = none)
    (A5 : s2.pts = s.pts)
    (A6 : s2.kind = (s.nextId, NKind.transform) :: s.kind)
    (A7 : s2.nodes = s.nodes ++ [s.nextId]) :
    ∀ sT, sT = makeIdentity (reparent (G + 1) (reparent (G + 1) s2 s.nextId pr)
        xCtrl s.nextId) xCtrl →
      Scene.parOf sT s.nextId = some pr
      ∧ Scene.parOf sT xCtrl = some s.nextId
      ∧ Scene.kindOf sT s.nextId = some NKind.transform
      ∧ s.nextId ∈ sT.nodes
      ∧ Scene.locOf sT xCtrl = Aff.idA
      ∧ worldAff (F + 1) sT s.nextId = D
      ∧ worldPivot (F + 1) sT s.nextId = D.tr
      ∧ ∀ c, c ∈ s.nodes → Scene.kindOf s c = some NKind.shape →
          Scene.parOf s c = some xCtrl → alook c s.loc = none →
          (Scene.ptsOf sT c).map (Aff.apply (worldAff (F + 3) sT c)) =
            (Scene.ptsOf s c).map (Aff.apply (worldAff (F + 2) s c)) := by
  intro sT hsT
  set b := s.nextId with hb
  set s3 := reparent (G + 1) s2 b pr with hs3
  set s4 := reparent (G + 1) s3 xCtrl b with hs4
  have hv : ∀ e ∈ s.par, e.2 < b := fun e he => (hwfpar e he).2
  have hxc_lt : xCtrl < b := (hwfpar (xCtrl, pr) (alook_mem xCtrl s.par pr hpr)).1
  have hpr_lt : pr < b := (hwfpar (xCtrl, pr) (alook_mem xCtrl s.par pr hpr)).2
  have hxcb : xCtrl ≠ b := by omega
  have hbxc : b ≠ xCtrl := by omega
  have hprxc : pr ≠ xCtrl := fun he => hnotin (he ▸ mem_chainList_self s F pr)
  have hchainG : ∀ Gx m, m ∈ chainList s Gx pr → m < b :=
    fun Gx => chain_mem_lt s b hv Gx pr hpr_lt
  have hdetWpr : Mat3.det (worldAff F s pr).lin ≠ 0 := det_worldAff_ne s F pr hinv
  -- parents and kinds of the intermediate scenes
  have hs3par : s3.par = (b, pr) :: s2.par := rfl
  have hs4par : s4.par = (xCtrl, b) :: (b, pr) :: s2.par := rfl
  have hs4kind : s4.kind = s2.kind := rfl
  have hs4pts : s4.pts = s2.pts := rfl
  have hs4pivotL : s4.pivotL = s2.pivotL := rfl
  have hs4nodes : s4.nodes = s2.nodes := rfl
  -- the world transform of the parent chain is untouched in s2 and s3
  have hW2 : ∀ Gx, worldAff Gx s2 pr = worldAff Gx s pr := by
    intro Gx
    refine worldAff_congr s s2 Gx pr (fun m hm => ⟨?_, ?_⟩)
    · rw [Scene.parOf, Scene.parOf, A1]
    · rw [Scene.locOf, Scene.locOf, A2 m (by have := hchainG Gx m hm; omega)]
  have hW3 : ∀ Gx, worldAff Gx s3 pr = worldAff Gx s pr := by
    intro Gx
    refine worldAff_congr s s3 Gx pr (fun m hm => ?_)
    have hmb : m ≠ b := by have := hchainG Gx m hm; omega
    constructor
    · rw [Scene.parOf, hs3par, alook_cons_ne m b pr s2.par (Ne.symm hmb), A1]
      rfl
    · rw [Scene.locOf, Scene.locOf]
      rw [show alook m s3.loc = alook m s2.loc from
        alook_cons_ne m b _ s2.loc (Ne.symm hmb)]
      rw [A2 m hmb]
  -- the offset's world transform after the first reparent is D
  have hs2parb : Scene.parOf s2 b = none := by
    rw [Scene.parOf, A1]
    exact alook_none_of_ge s.par b b (fun e he => (hwfpar e he).1) (le_refl b)
  have eB : worldAff (G + 1) s2 b = D := by
    rw [worldAff_succ_none G s2 b hs2parb]
    exact A3
  have eA : worldAff (G + 1) s2 pr = worldAff F s pr :=
    (hW2 (G + 1)).trans (worldAff_stable s F pr hroot (G + 1) (by omega))
  have eC : Scene.locOf s3 b = Aff.comp (Aff.inv (worldAff F s pr)) D := by
    show (alook b ((b, Aff.comp (Aff.inv (worldAff (G + 1) s2 pr))
      (worldAff (G + 1) s2 b)) :: s2.loc)).getD Aff.idA = _
    rw [alook_cons_self]
    show Aff.comp (Aff.inv (worldAff (G + 1) s2 pr)) (worldAff (G + 1) s2 b) = _
    rw [eA, eB]
  have hs3parb : Scene.parOf s3 b = some pr := alook_cons_self b pr s2.par
  have eD : worldAff (G + 1) s3 b = D := by
    rw [worldAff_succ_some G s3 b pr hs3parb]
    rw [show worldAff G s3 pr = worldAff F s pr from
      (hW3 G).trans (worldAff_stable s F pr hroot G hFG)]
    rw [eC, ← Aff.comp_assoc, Aff.comp_inv_self _ hdetWpr, Aff.idA_comp]
  have hs3parxc : Scene.parOf s3 xCtrl = some pr := by
    rw [Scene.parOf, hs3par, alook_cons_ne xCtrl b pr s2.par hbxc, A1]
    exact hpr
  have hs3locxc : Scene.locOf s3 xCtrl = Scene.locOf s xCtrl := by
    rw [Scene.locOf, Scene.locOf]
    rw [show alook xCtrl s3.loc = alook xCtrl s2.loc from
      alook_cons_ne xCtrl b _ s2.loc hbxc]
    rw [A2 xCtrl hxcb]
  have eE : worldAff (G + 1) s3 xCtrl = worldAff (F + 1) s xCtrl := by
    rw [worldAff_succ_some G s3 xCtrl pr hs3parxc,
      worldAff_succ_some F s xCtrl pr hpr]
    rw [show worldAff G s3 pr = worldAff F s pr from
      (hW3 G).trans (worldAff_stable s F pr hroot G hFG)]
    rw [hs3locxc]
  have eF : Scene.locOf s4 xCtrl =
      Aff.comp (Aff.inv D) (worldAff (F + 1) s xCtrl) := by
    show (alook xCtrl ((xCtrl, Aff.comp (Aff.inv (worldAff (G + 1) s3 b))
      (worldAff (G + 1) s3 xCtrl)) :: s3.loc)).getD Aff.idA = _
    rw [alook_cons_self]
    show Aff.comp (Aff.inv (worldAff (G + 1) s3 b)) (worldAff (G + 1) s3 xCtrl)
      = _
    rw [eD, eE]
  -- frame of the final scene
  have hTpar : sT.par = (xCtrl, b) :: (b, pr) :: s2.par := by
    rw [hsT]
    exact (miFold_frame (Scene.locOf s4 xCtrl) (childrenOf s4 xCtrl) s4).1
  have hTkind : sT.kind = s2.kind := by
    rw [hsT]
    exact (miFold_frame (Scene.locOf s4 xCtrl) (childrenOf s4 xCtrl) s4).2.1
  have hTnodes : sT.nodes = s2.nodes := by
    rw [hsT]
    exact (miFold_frame (Scene.locOf s4 xCtrl) (childrenOf s4 xCtrl) s4).2.2.2.1
  have hs4parb : Scene.parOf s4 b = some pr := by
    rw [Scene.parOf, hs4par, alook_cons_ne b xCtrl b _ hxcb]
    exact alook_cons_self b pr s2.par
  have hC1 : Scene.parOf sT b = some pr := by
    rw [Scene.parOf, hTpar, alook_cons_ne b xCtrl b _ hxcb]
    exact alook_cons_self b pr s2.par
  have hC2 : Scene.parOf sT xCtrl = some b := by
    rw [Scene.parOf, hTpar]
    exact alook_cons_self xCtrl b _
  have hC3 : Scene.kindOf sT b = some NKind.transform := by
    rw [Scene.kindOf, hTkind, A6]
    exact alook_cons_self b NKind.transform s.kind
  have hC4 : b ∈ sT.nodes := by
    rw [hTnodes, A7]
    exact List.mem_append_right _ (List.mem_singleton.mpr rfl)
  have hC5 : Scene.locOf sT xCtrl = Aff.idA := by
    rw [hsT]
    show (alook xCtrl ((xCtrl, Aff.idA) :: ((childrenOf s4 xCtrl).foldl
      (miStep (Scene.locOf s4 xCtrl)) s4).loc)).getD Aff.idA = Aff.idA
    rw [alook_cons_self]
    rfl
  -- the loc of nodes other than xCtrl and the non-shape children in sT
  have hTloc_of : ∀ m, m ≠ xCtrl →
      (m ∈ childrenOf s4 xCtrl → Scene.kindOf s4 m = some NKind.shape) →
      alook m sT.loc = alook m s4.loc := by
    intro m hmxc hcond
    rw [hsT]
    rw [show alook m (makeIdentity s4 xCtrl).loc = alook m
      ((childrenOf s4 xCtrl).foldl (miStep (Scene.locOf s4 xCtrl)) s4).loc from
      alook_cons_ne m xCtrl Aff.idA _ (Ne.symm hmxc)]
    exact miFold_loc (Scene.locOf s4 xCtrl) (childrenOf s4 xCtrl) s4 m hcond
  have hs4loc_ne : ∀ m, m ≠ xCtrl → m ≠ b →
      alook m s4.loc = alook m s.loc := by
    intro m hmxc hmb
    rw [show alook m s4.loc = alook m s3.loc from
      alook_cons_ne m xCtrl _ s3.loc (Ne.symm hmxc)]
    rw [show alook m s3.loc = alook m s2.loc from
      alook_cons_ne m b _ s2.loc (Ne.symm hmb)]
    exact A2 m hmb
  have hs4par_ne : ∀ m, m ≠ xCtrl → m ≠ b →
      Scene.parOf s4 m = Scene.parOf s m := by
    intro m hmxc hmb
    rw [Scene.parOf, hs4par, alook_cons_ne m xCtrl b _ (Ne.symm hmxc),
      alook_cons_ne m b pr s2.par (Ne.symm hmb), A1]
    rfl
  have hWprT : worldAff F sT pr = worldAff F s pr := by
    refine worldAff_congr s sT F pr (fun m hm => ?_)
    have hmb : m ≠ b := by have := hchainG F m hm; omega
    have hmxc : m ≠ xCtrl := fun he => hnotin (he ▸ hm)
    have hm4 : Scene.parOf s4 m = Scene.parOf s m := hs4par_ne m hmxc hmb
    constructor
    · rw [Scene.parOf, hTpar, alook_cons_ne m xCtrl b _ (Ne.symm hmxc),
        alook_cons_ne m b pr s2.par (Ne.symm hmb), A1]
      rfl
    · rw [Scene.locOf, Scene.locOf]
      rw [hTloc_of m hmxc (fun hmem => by
        have h5 := ((mem_childrenOf s4 xCtrl m).mp hmem).2
        rw [hm4] at h5
        exact absurd h5 (hnotpar m hm))]
      rw [hs4loc_ne m hmxc hmb]
  have hTlocb : Scene.locOf sT b =
      Aff.comp (Aff.inv (worldAff F s pr)) D := by
    rw [Scene.locOf]
    rw [hTloc_of b hbxc (fun hmem => by
      have h5 := ((mem_childrenOf s4 xCtrl b).mp hmem).2
      rw [hs4parb] at h5
      exact absurd (Option.some.inj h5) hprxc)]
    rw [show alook b s4.loc = alook b s3.loc from
      alook_cons_ne b xCtrl _ s3.loc hxcb]
    exact eC
  have hC6 : worldAff (F + 1) sT b = D := by
    rw [worldAff_succ_some F sT b pr hC1, hWprT, hTlocb, ← Aff.comp_assoc,
      Aff.comp_inv_self _ hdetWpr, Aff.idA_comp]
  have hC7 : worldPivot (F + 1) sT b = D.tr := by
    rw [worldPivot, hC6]
    have hpiv : Scene.pivotOf sT b = 0 := by
      rw [Scene.pivotOf]
      rw [show alook b sT.pivotL = alook b ((childrenOf s4 xCtrl).foldl
        (miStep (Scene.locOf s4 xCtrl)) s4).pivotL from by
          rw [hsT]
          exact alook_cons_ne b xCtrl _ _ hxcb]
      rw [(miFold_frame (Scene.locOf s4 xCtrl) (childrenOf s4 xCtrl) s4).2.2.1]
      rw [show s4.pivotL = s2.pivotL from rfl, A4]
      rfl
    rw [hpiv]
    exact Aff.apply_zero D
  refine ⟨hC1, hC2, hC3, hC4, hC5, hC6, hC7, ?_⟩
  -- shape children of the control keep their world-space points
  intro c hc0 hc1 hc2 hc3
  have hc_lt : c < b := (hwfpar (c, xCtrl) (alook_mem c s.par xCtrl hc2)).1
  have hcb : c ≠ b := by omega
  have hcxc : c ≠ xCtrl := by
    intro he
    rw [he] at hc2
    rw [hc2] at hpr
    exact hprxc (Option.some.inj hpr).symm
  have hs4parc : Scene.parOf s4 c = some xCtrl := by
    rw [hs4par_ne c hcxc hcb]
    exact hc2
  have hs4kindc : Scene.kindOf s4 c = some NKind.shape := by
    rw [Scene.kindOf, hs4kind, A6, alook_cons_ne c b _ s.kind (Ne.symm hcb)]
    exact hc1
  have hmemc : c ∈ childrenOf s4 xCtrl := by
    rw [mem_childrenOf]
    refine ⟨?_, hs4parc⟩
    rw [hs4nodes, A7]
    exact List.mem_append_left _ hc0
  have hnodup4 : (childrenOf s4 xCtrl).Nodup := by
    refine List.Nodup.filter _ ?_
    rw [hs4nodes, A7, List.nodup_append]
    refine ⟨hnd, List.nodup_singleton b, ?_⟩
    intro a ha hb2
    rw [List.mem_singleton] at hb2
    have := hwfnodes a ha
    omega
  have hptsT : Scene.ptsOf sT c =
      (Scene.ptsOf s c).map (fun v => Aff.apply (Scene.locOf s4 xCtrl) v) := by
    rw [hsT]
    show Scene.ptsOf ((childrenOf s4 xCtrl).foldl
      (miStep (Scene.locOf s4 xCtrl)) s4) c = _
    rw [miFold_pts_mem (Scene.locOf s4 xCtrl) (childrenOf s4 xCtrl) s4 c
      hnodup4 hmemc hs4kindc]
    rw [show Scene.ptsOf s4 c = Scene.ptsOf s c from by
      rw [Scene.ptsOf, Scene.ptsOf, show s4.pts = s2.pts from rfl, A5]]
  have hTparc : Scene.parOf sT c = some xCtrl := by
    rw [Scene.parOf, hTpar, alook_cons_ne c xCtrl b _ (Ne.symm hcxc),
      alook_cons_ne c b pr s2.par (Ne.symm hcb), A1]
    exact hc2
  have hTlocc : Scene.locOf sT c = Aff.idA := by
    rw [Scene.locOf]
    rw [hTloc_of c hcxc (fun _ => hs4kindc)]
    rw [hs4loc_ne c hcxc hcb, hc3]
    rfl
  have hwT2 : worldAff (F + 2) sT xCtrl = D := by
    rw [worldAff_succ_some (F + 1) sT xCtrl b hC2, hC6, hC5, Aff.comp_idA]
  have hwT3 : worldAff (F + 3) sT c = D := by
    rw [worldAff_succ_some (F + 2) sT c xCtrl hTparc, hwT2, hTlocc,
      Aff.comp_idA]
  have hlocsc : Scene.locOf s c = Aff.idA := by
    rw [Scene.locOf, hc3]
    rfl
  have hws2 : worldAff (F + 2) s c = worldAff (F + 1) s xCtrl := by
    rw [worldAff_succ_some (F + 1) s c xCtrl hc2, hlocsc, Aff.comp_idA]
  rw [hptsT, hwT3, hws2, List.map_map]
  refine List.map_congr_left (fun v _ => ?_)
  show Aff.apply D (Aff.apply (Scene.locOf s4 xCtrl) v) = _
  rw [← Aff.apply_comp, eF, ← Aff.comp_assoc, Aff.comp_inv_self _ hdetD,
    Aff.idA_comp]

theorem cox_none_eq (fuel : Nat) (s : Scene) (xCtrl pr : Nat) (s2 : Scene)
    (hs2 : reposition fuel (createNode s NKind.transform).2 [xCtrl]
      [(createNode s NKind.transform).1] "parent" = s2)
    (h : Scene.parOf s2 xCtrl = some pr) :
    createOffsetXform fuel s xCtrl none =
      some ((createNode s NKind.transform).1,
        makeIdentity (reparent fuel (reparent fuel s2
          (createNode s NKind.transform).1 pr) xCtrl
          (createNode s NKind.transform).1) xCtrl) := by
  subst hs2
  show (match Scene.parOf (reposition fuel (createNode s NKind.transform).2
      [xCtrl] [(createNode s NKind.transform).1] "parent") xCtrl with
    | none => (none : Option (Nat × Scene))
    | some xParent =>
        some ((createNode s NKind.transform).1,
          makeIdentity (reparent fuel (reparent fuel
            (reposition fuel (createNode s NKind.transform).2 [xCtrl]
              [(createNode s NKind.transform).1] "parent")
            (createNode s NKind.transform).1 xParent) xCtrl
            (createNode s NKind.transform).1) xCtrl)) = _
  rw [h]

theorem cox_some_eq (fuel : Nat) (s : Scene) (xCtrl d pr : Nat)
    (sa s2 : Scene)
    (hsa : reposition fuel (createNode s NKind.transform).2 [d]
      [(createNode s NKind.transform).1] "parent" = sa)
    (hs2 : Scene.setPivot sa xCtrl
      (Aff.apply (Aff.inv (worldAff fuel sa xCtrl))
        (worldPivot fuel sa d)) = s2)
    (h : Scene.parOf s2 xCtrl = some pr) :
    createOffsetXform fuel s xCtrl (some d) =
      some ((createNode s NKind.transform).1,
        makeIdentity (reparent fuel (reparent fuel s2
          (createNode s NKind.transform).1 pr) xCtrl
          (createNode s NKind.transform).1) xCtrl) := by
  subst hsa
  subst hs2
  show (match Scene.parOf (Scene.setPivot
      (reposition fuel (createNode s NKind.transform).2 [d]
        [(createNode s NKind.transform).1] "parent") xCtrl
      (Aff.apply (Aff.inv (worldAff fuel
        (reposition fuel (createNode s NKind.transform).2 [d]
          [(createNode s NKind.transform).1] "parent") xCtrl))
        (worldPivot fuel
          (reposition fuel (createNode s NKind.transform).2 [d]
            [(createNode s NKind.transform).1] "parent") d))) xCtrl with
    | none => (none : Option (Nat × Scene))
    | some xParent =>
        some ((createNode s NKind.transform).1,
          makeIdentity (reparent fuel (reparent fuel
            (Scene.setPivot
              (reposition fuel (createNode s NKind.transform).2 [d]
                [(createNode s NKind.transform).1] "parent") xCtrl
              (Aff.apply (Aff.inv (worldAff fuel
                (reposition fuel (createNode s NKind.transform).2 [d]
                  [(createNode s NKind.transform).1] "parent") xCtrl))
                (worldPivot fuel
                  (reposition fuel (createNode s NKind.transform).2 [d]
                    [(createNode s NKind.transform).1] "parent") d)))
            (createNode s NKind.transform).1 xParent) xCtrl
            (createNode s NKind.transform).1) xCtrl)) = _
  rw [h]

/-- C8.  `common.createOffsetXform` on a parented control creates a fresh
offset transform and inserts it between the control and its previous
parent: the offset's parent is the control's old parent and the control's
parent is the offset.  The offset's world position is the queried world
rotate pivot of `xDriven` when one is given and of the control itself
otherwise.  Afterwards the control's local transform is frozen to the
identity while its shape children keep their world-space points.  Stated
under scene well-formedness: ids below `nextId`, the control on an acyclic
rooted parent chain with invertible transforms, and the driven node (when
given) likewise. -/
theorem createOffsetXform_spec (F fuel : Nat) (s : Scene) (xCtrl pr : Nat)
    (xDriven : Option Nat)
    (hfuel : F + 1 ≤ fuel)
    (hpr : Scene.parOf s xCtrl = some pr)
    (hwfpar : ∀ e ∈ s.par, e.1 < s.nextId ∧ e.2 < s.nextId)
    (hwfpiv : ∀ e ∈ s.pivotL, e.1 < s.nextId)
    (hwfnodes : ∀ x ∈ s.nodes, x < s.nextId)
    (hnd : s.nodes.Nodup)
    (hrootc : rootedIn s (F + 1) xCtrl = true)
    (hinvc : invChain s (F + 1) xCtrl = true)
    (hnotin : xCtrl ∉ chainList s F pr)
    (hnotpar : ∀ m ∈ chainList s F pr, Scene.parOf s m ≠ some xCtrl)
    (hdrv : ∀ d, xDriven = some d →
      d < s.nextId ∧ rootedIn s F d = true ∧ invChain s F d = true) :
    ∃ sT, createOffsetXform fuel s xCtrl xDriven = some (s.nextId, sT)
      ∧ s.nextId ∉ s.nodes
      ∧ s.nextId ∈ sT.nodes
      ∧ Scene.kindOf sT s.nextId = some NKind.transform
      ∧ Scene.parOf sT s.nextId = some pr
      ∧ Scene.parOf sT xCtrl = some s.nextId
      ∧ Scene.locOf sT xCtrl = Aff.idA
      ∧ worldPivot (F + 1) sT s.nextId =
          worldPivot (F + 1) s (xDriven.getD xCtrl)
      ∧ ∀ c, c ∈ s.nodes → Scene.kindOf s c = some NKind.shape →
          Scene.parOf s c = some xCtrl → alook c s.loc = none →
          (Scene.ptsOf sT c).map (Aff.apply (worldAff (F + 3) sT c)) =
            (Scene.ptsOf s c).map (Aff.apply (worldAff (F + 2) s c)) := by
  obtain ⟨G, rfl⟩ : ∃ G, fuel = G + 1 := ⟨fuel - 1, by omega⟩
  have hFG : F ≤ G := by omega
  have hroot : rootedIn s F pr = true := by
    rw [rootedIn_succ, hpr] at hrootc
    exact hrootc
  have hdetlocxc : ¬ Mat3.det (Scene.locOf s xCtrl).lin = 0 := by
    intro h0
    rw [invChain_succ, if_pos h0] at hinvc
    exact absurd hinvc (by simp)
  have hinvpr : invChain s F pr = true := by
    rw [invChain_succ, if_neg hdetlocxc, hpr] at hinvc
    exact hinvc
  have hrootc2 : rootedIn s (F + 1) xCtrl = true := by
    rw [rootedIn_succ, hpr]
    exact hroot
  have hinvc2 : invChain s (F + 1) xCtrl = true := by
    rw [invChain_succ, if_neg hdetlocxc, hpr]
    exact hinvpr
  have hbnotin : s.nextId ∉ s.nodes := fun h => lt_irrefl _ (hwfnodes _ h)
  have hxc_lt : xCtrl < s.nextId :=
    (hwfpar (xCtrl, pr) (alook_mem xCtrl s.par pr hpr)).1
  have hxcb : xCtrl ≠ s.nextId := by omega
  cases xDriven with
  | none =>
    set s1N := (createNode s NKind.transform).2 with hs1N
    set S2 := reposition (G + 1) s1N [xCtrl]
      [(createNode s NKind.transform).1] "parent" with hS2def
    set W := worldAff (F + 1) s xCtrl with hWdef
    set DD : Aff := ⟨W.lin, Aff.apply W (Scene.pivotOf s xCtrl)⟩ with hDDdef
    have hA1 : S2.par = s.par := rfl
    have hA2 : ∀ m, m ≠ s.nextId → alook m S2.loc = alook m s.loc := by
      intro m hm
      exact alook_cons_ne m s.nextId _ s.loc (Ne.symm hm)
    have hW1 : worldAff (G + 1) s1N xCtrl = W :=
      (worldAff_congr s s1N (G + 1) xCtrl (fun m _ => ⟨rfl, rfl⟩)).trans
        (worldAff_stable s (F + 1) xCtrl hrootc2 (G + 1) (by omega))
    have hloc2 : S2.loc = (s.nextId,
        Aff.comp (Aff.inv (parentWorld (G + 1) s1N s.nextId))
          ⟨(worldAff (G + 1) s1N xCtrl).lin,
            centroid (List.map (fun t => worldPivot (G + 1) s1N t) [xCtrl]) -
              Mat3.mulVec (worldAff (G + 1) s1N xCtrl).lin
                (Scene.pivotOf s1N s.nextId)⟩) :: s.loc := rfl
    have hpw : parentWorld (G + 1) s1N s.nextId = Aff.idA := by
      rw [parentWorld, show Scene.parOf s1N s.nextId = none from
        alook_none_of_ge s.par s.nextId s.nextId
          (fun e he => (hwfpar e he).1) (le_refl _)]
    have hcent : centroid (List.map (fun t => worldPivot (G + 1) s1N t)
        [xCtrl]) = Aff.apply W (Scene.pivotOf s xCtrl) := by
      rw [show List.map (fun t => worldPivot (G + 1) s1N t) [xCtrl] =
        [worldPivot (G + 1) s1N xCtrl] from rfl, centroid_single, worldPivot,
        hW1]
      rfl
    have hpivb : Scene.pivotOf s1N s.nextId = 0 := by
      rw [Scene.pivotOf, show alook s.nextId s1N.pivotL =
        alook s.nextId s.pivotL from rfl, alook_none_of_ge s.pivotL s.nextId
          s.nextId (fun e he => hwfpiv e he) (le_refl _)]
      rfl
    have hA3 : Scene.locOf S2 s.nextId = DD := by
      rw [Scene.locOf, hloc2, alook_cons_self, Option.getD_some, hpw,
        Aff.inv_idA, Aff.idA_comp, hW1, hcent, hpivb, Mat3.mulVec_zero,
        vec_sub_zero]
    have hA4 : alook s.nextId S2.pivotL = none := by
      rw [show S2.pivotL = s.pivotL from rfl]
      exact alook_none_of_ge s.pivotL s.nextId s.nextId
        (fun e he => hwfpiv e he) (le_refl _)
    have hA5 : S2.pts = s.pts := rfl
    have hA6 : S2.kind = (s.nextId, NKind.transform) :: s.kind := rfl
    have hA7 : S2.nodes = s.nodes ++ [s.nextId] := rfl
    have hdetD : Mat3.det DD.lin ≠ 0 := det_worldAff_ne s (F + 1) xCtrl hinvc2
    have hs2xc : Scene.parOf S2 xCtrl = some pr := hpr
    obtain ⟨T1, T2, T3, T4, T5, T6, T7, T8⟩ :=
      offsetTail_spec F G s S2 xCtrl pr DD hFG hpr hwfpar hwfnodes hnd hroot
        hinvpr hnotin hnotpar hdetD hA1 hA2 hA3 hA4 hA5 hA6 hA7
        (makeIdentity (reparent (G + 1) (reparent (G + 1) S2 s.nextId pr)
          xCtrl s.nextId) xCtrl) rfl
    refine ⟨makeIdentity (reparent (G + 1) (reparent (G + 1) S2 s.nextId pr)
      xCtrl s.nextId) xCtrl, ?_, hbnotin, T4, T3, T1, T2, T5, ?_, T8⟩
    · exact cox_none_eq (G + 1) s xCtrl pr S2 rfl hs2xc
    · exact T7
  | some d =>
    obtain ⟨hd_lt, hrootd, hinvd⟩ := hdrv d rfl
    set s1N := (createNode s NKind.transform).2 with hs1N
    set sa := reposition (G + 1) s1N [d]
      [(createNode s NKind.transform).1] "parent" with hsadef
    set S2 := Scene.setPivot sa xCtrl
      (Aff.apply (Aff.inv (worldAff (G + 1) sa xCtrl))
        (worldPivot (G + 1) sa d)) with hS2def
    set Wd := worldAff F s d with hWddef
    set DD : Aff := ⟨Wd.lin, Aff.apply Wd (Scene.pivotOf s d)⟩ with hDDdef
    have hA1 : S2.par = s.par := rfl
    have hA2 : ∀ m, m ≠ s.nextId → alook m S2.loc = alook m s.loc := by
      intro m hm
      exact alook_cons_ne m s.nextId _ s.loc (Ne.symm hm)
    have hWd1 : worldAff (G + 1) s1N d = Wd :=
      (worldAff_congr s s1N (G + 1) d (fun m _ => ⟨rfl, rfl⟩)).trans
        (worldAff_stable s F d hrootd (G + 1) (by omega))
    have hloc2 : S2.loc = (s.nextId,
        Aff.comp (Aff.inv (parentWorld (G + 1) s1N s.nextId))
          ⟨(worldAff (G + 1) s1N d).lin,
            centroid (List.map (fun t => worldPivot (G + 1) s1N t) [d]) -
              Mat3.mulVec (worldAff (G + 1) s1N d).lin
                (Scene.pivotOf s1N s.nextId)⟩) :: s.loc := rfl
    have hpw : parentWorld (G + 1) s1N s.nextId = Aff.idA := by
      rw [parentWorld, show Scene.parOf s1N s.nextId = none from
        alook_none_of_ge s.par s.nextId s.nextId
          (fun e he => (hwfpar e he).1) (le_refl _)]
    have hcent : centroid (List.map (fun t => worldPivot (G + 1) s1N t)
        [d]) = Aff.apply Wd (Scene.pivotOf s d) := by
      rw [show List.map (fun t => worldPivot (G + 1) s1N t) [d] =
        [worldPivot (G + 1) s1N d] from rfl, centroid_single, worldPivot,
        hWd1]
      rfl
    have hpivb : Scene.pivotOf s1N s.nextId = 0 := by
      rw [Scene.pivotOf, show alook s.nextId s1N.pivotL =
        alook s.nextId s.pivotL from rfl, alook_none_of_ge s.pivotL s.nextId
          s.nextId (fun e he => hwfpiv e he) (le_refl _)]
      rfl
    have hA3 : Scene.locOf S2 s.nextId = DD := by
      rw [Scene.locOf, hloc2, alook_cons_self, Option.getD_some, hpw,
        Aff.inv_idA, Aff.idA_comp, hWd1, hcent, hpivb, Mat3.mulVec_zero,
        vec_sub_zero]
    have hA4 : alook s.nextId S2.pivotL = none := by
      rw [show S2.pivotL = (xCtrl,
        Aff.apply (Aff.inv (worldAff (G + 1) sa xCtrl))
          (worldPivot (G + 1) sa d)) :: s.pivotL from rfl]
      rw [alook_cons_ne s.nextId xCtrl _ s.pivotL hxcb]
      exact alook_none_of_ge s.pivotL s.nextId s.nextId
        (fun e he => hwfpiv e he) (le_refl _)
    have hA5 : S2.pts = s.pts := rfl
    have hA6 : S2.kind = (s.nextId, NKind.transform) :: s.kind := rfl
    have hA7 : S2.nodes = s.nodes ++ [s.nextId] := rfl
    have hdetD : Mat3.det DD.lin ≠ 0 := det_worldAff_ne s F d hinvd
    have hs2xc : Scene.parOf S2 xCtrl = some pr := hpr
    obtain ⟨T1, T2, T3, T4, T5, T6, T7, T8⟩ :=
      offsetTail_spec F G s S2 xCtrl pr DD hFG hpr hwfpar hwfnodes hnd hroot
        hinvpr hnotin hnotpar hdetD hA1 hA2 hA3 hA4 hA5 hA6 hA7
        (makeIdentity (reparent (G + 1) (reparent (G + 1) S2 s.nextId pr)
          xCtrl s.nextId) xCtrl) rfl
    refine ⟨makeIdentity (reparent (G + 1) (reparent (G + 1) S2 s.nextId pr)
      xCtrl s.nextId) xCtrl, ?_, hbnotin, T4, T3, T1, T2, T5, ?_, T8⟩
    · exact cox_some_eq (G + 1) s xCtrl d pr sa S2 rfl rfl hs2xc
    · have hstabd : worldAff (F + 1) s d = worldAff F s d :=
        worldAff_stable s F d hrootd (F + 1) (by omega)
      rw [T7, show Option.getD (some d) xCtrl = d from rfl, worldPivot,
        hstabd]

theorem Mat3.det_id3 : Mat3.det Mat3.id3 = 1 := by
  norm_num [Mat3.det, Mat3.id3]

theorem invChain_of_empty_loc (s : Scene) (hl : s.loc = []) :
    ∀ F n, rootedIn s F n = true → invChain s F n = true := by
  intro F
  induction F with
  | zero =>
    intro n h
    rw [rootedIn_zero] at h
    exact absurd h (by simp)
  | succ F ih =>
    intro n h
    rw [rootedIn_succ] at h
    rw [invChain_succ]
    have hloc : Scene.locOf s n = Aff.idA := by
      rw [Scene.locOf, hl]
      rfl
    have hdet : ¬ Mat3.det (Scene.locOf s n).lin = 0 := by
      rw [hloc, show Mat3.det Aff.idA.lin = 1 from Mat3.det_id3]
      norm_num
    rw [if_neg hdet]
    cases hps : Scene.parOf s n with
    | none => rfl
    | some p =>
      rw [hps] at h
      have h2 : rootedIn s F p = true := h
      show invChain s F p = true
      exact ih p h2

/-- Witness for C8: a three-node scene (root 0, control 1 under it, shape 2
under the control), no driven transform. -/
theorem createOffsetXform_spec_witness :
    ∃ sT, createOffsetXform 2
        { nodes := [0, 1, 2], par := [(1, 0), (2, 1)],
          kind := [(0, NKind.transform), (1, NKind.transform),
            (2, NKind.shape)],
          loc := [], pivotL := [], pts := [(2, [⟨1, 0, 0⟩])], radius := [],
          conns := [], blender := [], constraints := [], created := [],
          attrIKFK := [], sdk := [], nextId := 3 } 1 none = some (3, sT)
      ∧ 3 ∉ [0, 1, 2]
      ∧ 3 ∈ sT.nodes
      ∧ Scene.kindOf sT 3 = some NKind.transform
      ∧ Scene.parOf sT 3 = some 0
      ∧ Scene.parOf sT 1 = some 3
      ∧ Scene.locOf sT 1 = Aff.idA
      ∧ worldPivot 2 sT 3 = worldPivot 2
          { nodes := [0, 1, 2], par := [(1, 0), (2, 1)],
            kind := [(0, NKind.transform), (1, NKind.transform),
              (2, NKind.shape)],
            loc := [], pivotL := [], pts := [(2, [⟨1, 0, 0⟩])], radius := [],
            conns := [], blender := [], constraints := [], created := [],
            attrIKFK := [], sdk := [], nextId := 3 } 1
      ∧ ∀ c, c ∈ [0, 1, 2] →
          alook c [(0, NKind.transform), (1, NKind.transform),
            (2, NKind.shape)] = some NKind.shape →
          alook c [(1, 0), (2, 1)] = some 1 →
          alook c ([] : List (Nat × Aff)) = none →
          (Scene.ptsOf sT c).map (Aff.apply (worldAff 4 sT c)) =
            ((alook c [(2, [(⟨1, 0, 0⟩ : Vec3 ℚ)])]).getD []).map
              (Aff.apply (worldAff 3
                { nodes := [0, 1, 2], par := [(1, 0), (2, 1)],
                  kind := [(0, NKind.transform), (1, NKind.transform),
                    (2, NKind.shape)],
                  loc := [], pivotL := [], pts := [(2, [⟨1, 0, 0⟩])],
                  radius := [], conns := [], blender := [],
                  constraints := [], created := [], attrIKFK := [],
                  sdk := [], nextId := 3 } c)) :=
  createOffsetXform_spec 1 2
    { nodes := [0, 1, 2], par := [(1, 0), (2, 1)],
      kind := [(0, NKind.transform), (1, NKind.transform), (2, NKind.shape)],
      loc := [], pivotL := [], pts := [(2, [⟨1, 0, 0⟩])], radius := [],
      conns := [], blender := [], constraints := [], created := [],
      attrIKFK := [], sdk := [], nextId := 3 } 1 0 none
    (by omega) rfl (by decide) (by decide) (by decide) (by decide)
    (by decide) (invChain_of_empty_loc _ rfl _ _ (by decide)) (by decide)
    (by decide) (fun d h => Option.noConfusion h)
